import Mathlib

/-!
Shallow embedding of the control-registry and key-binding engine of
sndiokeys (src/sndiokeys.c).  The linked list `ctl_list` is modelled as a
`List Ctl`; pointers into the list are modelled as indices; the observable
side effects (sioctl_setval commands, the beep_pending flag, stderr
diagnostics) are collected in a `PState` record.  String comparison via
strcmp is modelled with the lexicographic order on `String` (UTF-8 is
order-preserving on code points, so byte order and code-point order agree).
-/

/-- Control types from sioctl.h; only the relative order of the three
supported kinds matters for sorting (`cmpdesc` subtracts the codes). -/
def SIOCTL_NONE : Nat := 0

def SIOCTL_NUM : Nat := 2

def SIOCTL_SW : Nat := 3

def SIOCTL_VEC : Nat := 4

def SIOCTL_LIST : Nat := 5

def SIOCTL_SEL : Nat := 6

/-- X11 modifier bits (X.h). -/
def ShiftMask : Nat := 1

def LockMask : Nat := 2

def ControlMask : Nat := 4

def Mod1Mask : Nat := 8

def Mod2Mask : Nat := 16

def Mod4Mask : Nat := 64

/-- The mask of modifiers supported for key-bindings (src/sndiokeys.c:35). -/
def MODMASK : Nat := ControlMask ||| Mod1Mask ||| Mod4Mask

/-- Number of level steps between 0 and 1 (src/sndiokeys.c:40). -/
def NSTEP : Nat := 20

/-- Max fds we poll (src/sndiokeys.c:45). -/
def MAXFDS : Nat := 64

/-- One namespace node of a sioctl_desc (struct sioctl_node of sioctl.h). -/
structure SioctlNode where
  name : String
  unit : Int
deriving DecidableEq, Repr, Inhabited

/-- The relevant fields of struct sioctl_desc (sioctl.h): addr is the opaque
control address, type the control kind, maxval the inclusive upper bound. -/
structure SioctlDesc where
  addr : Nat
  type : Nat
  func : String
  group : String
  node0 : SioctlNode
  node1 : SioctlNode
  maxval : Nat
deriving DecidableEq, Repr, Inhabited

/-- One registry entry (struct ctl, src/sndiokeys.c:58-62); the `next`
pointer is the list structure itself. -/
structure Ctl where
  desc : SioctlDesc
  val : Int
deriving DecidableEq, Repr, Inhabited

/-- Structural lexicographic comparison of the character lists of two
strings, mirroring the byte loop of C strcmp (UTF-8 byte order and code
point order agree). -/
def charListLt : List Char → List Char → Bool
  | [], [] => false
  | [], _ :: _ => true
  | _ :: _, [] => false
  | a :: as, b :: bs =>
    if a < b then true else if b < a then false else charListLt as bs

/-- The strict string order used below; strLt_iff proves it coincides with
the library order on String. -/
def strLt (a b : String) : Bool :=
  charListLt a.data b.data

/-- Result of C strcmp on the two strings, collapsed to -1/0/1. -/
def strcmpInt (a b : String) : Int :=
  if strLt a b then -1 else if strLt b a then 1 else 0

/-- compare two sioctl_desc structures, used to sort ctl_list
(cmpdesc, src/sndiokeys.c:153-180). -/
def cmpdesc (d1 d2 : SioctlDesc) : Int :=
  let res := strcmpInt d1.group d2.group
  if res ≠ 0 then res else
  let res := strcmpInt d1.node0.name d2.node0.name
  if res ≠ 0 then res else
  let res := (d1.type : Int) - (d2.type : Int)
  if res ≠ 0 then res else
  let res := strcmpInt d1.func d2.func
  if res ≠ 0 then res else
  let res := d1.node0.unit - d2.node0.unit
  if d1.type = SIOCTL_SEL then
    if res ≠ 0 then res else
    let res := strcmpInt d1.node1.name d2.node1.name
    if res ≠ 0 then res else
    d1.node1.unit - d2.node1.unit
  else res

/-- Two descriptors share group, node0 name and func (the comparison made at
the top of the loops of nextctl and nextent, src/sndiokeys.c:195-199 and
218-222). -/
def samegnf (a b : SioctlDesc) : Prop :=
  a.group = b.group ∧ a.node0.name = b.node0.name ∧ a.func = b.func

instance (a b : SioctlDesc) : Decidable (samegnf a b) := by
  unfold samegnf; infer_instance

/-- Two descriptors share group, node0 name, func and node0 unit — the
sibling test used by onval (src/sndiokeys.c:298-301) and nextctl. -/
def samegrp (a b : SioctlDesc) : Prop :=
  samegnf a b ∧ a.node0.unit = b.node0.unit

instance (a b : SioctlDesc) : Decidable (samegrp a b) := by
  unfold samegrp; infer_instance

/-- skip all parameters with the same group, name, func and unit
(the loop body of nextctl, src/sndiokeys.c:185-203), expressed as a scan
of the tail of the list: offset of the first entry of the next block. -/
def nextctlScan (d : SioctlDesc) : List Ctl → Option Nat
  | [] => none
  | c :: rest =>
    if samegrp d c.desc then (nextctlScan d rest).map (· + 1)
    else some 0

/-- nextctl (src/sndiokeys.c:185-203) on the pointer-as-index model:
from the entry at index i, index of the first entry of the next block. -/
def nextctlIdx (l : List Ctl) (i : Nat) : Option Nat :=
  match l.get? i with
  | none => none
  | some c => (nextctlScan c.desc (l.drop (i + 1))).map (fun off => i + 1 + off)

/-- move to the next selector entry or return NULL (the loop body of
nextent, src/sndiokeys.c:208-227): scanning the tail, fail at the first
entry with different group/name/func, succeed at the first with the same
unit. -/
def nextentScan (d : SioctlDesc) : List Ctl → Option Nat
  | [] => none
  | c :: rest =>
    if samegnf d c.desc then
      if d.node0.unit = c.desc.node0.unit then some 0
      else (nextentScan d rest).map (· + 1)
    else none

/-- nextent (src/sndiokeys.c:208-227) on the pointer-as-index model. -/
def nextentIdx (l : List Ctl) (i : Nat) : Option Nat :=
  match l.get? i with
  | none => none
  | some c => (nextentScan c.desc (l.drop (i + 1))).map (fun off => i + 1 + off)

/-- The removal pass of ondesc (src/sndiokeys.c:240-246): unlink and free
the first entry with the given address (the loop breaks after one hit). -/
def delAddr (addr : Nat) : List Ctl → List Ctl
  | [] => []
  | c :: rest => if c.desc.addr = addr then rest else c :: delAddr addr rest

/-- The insertion pass of ondesc (src/sndiokeys.c:257-273): insert the new
entry before the first existing entry that compares ≥ it. -/
def insertCtl (c : Ctl) : List Ctl → List Ctl
  | [] => [c]
  | i :: rest => if cmpdesc c.desc i.desc ≤ 0 then c :: i :: rest else i :: insertCtl c rest

/-- sndio call-back for added/removed controls (ondesc,
src/sndiokeys.c:232-274).  A `none` descriptor is the end-of-list marker;
a descriptor whose type is not NUM/SW/SEL only removes the old entry. -/
def ondesc (desc? : Option SioctlDesc) (val : Int) (l : List Ctl) : List Ctl :=
  match desc? with
  | none => l
  | some desc =>
    let l1 := delAddr desc.addr l
    if desc.type = SIOCTL_NUM ∨ desc.type = SIOCTL_SW ∨ desc.type = SIOCTL_SEL then
      insertCtl { desc := desc, val := val } l1
    else l1

/-- One transport descriptor event: ondesc's arguments. -/
structure DescEv where
  desc : Option SioctlDesc
  val : Int
deriving Repr

/-- A sequence of transport add/remove notifications applied to the
initially empty registry. -/
def applyDescs (evs : List DescEv) : List Ctl :=
  evs.foldl (fun l e => ondesc e.desc e.val l) []

/-- Helper for onval's non-selector branch (src/sndiokeys.c:306): write the
value of the first entry carrying the address (the entry the search loop of
onval stopped at). -/
def updFirstAddr (addr : Nat) (v : Int) : List Ctl → List Ctl
  | [] => []
  | c :: rest =>
    if c.desc.addr = addr then { c with val := v } :: rest
    else c :: updFirstAddr addr v rest

/-- sndio call-back for control value changes (onval,
src/sndiokeys.c:279-308).  For a selector entry the notification is
one-hot over the entries sharing group, node0 name, func and node0 unit;
otherwise the value is stored directly. -/
def onval (addr : Nat) (v : Int) (l : List Ctl) : List Ctl :=
  match l.find? (fun c => c.desc.addr == addr) with
  | none => l
  | some i =>
    if i.desc.type = SIOCTL_SEL then
      l.map (fun j =>
        if samegrp i.desc j.desc then
          { j with val := if i.desc.addr = j.desc.addr then 1 else 0 }
        else j)
    else updFirstAddr addr v l

/-- The program state touched by the control-editing code: the registry
(ctl_list), the sioctl_setval commands issued so far (addr, value) in
order, the beep_pending flag, and the stderr diagnostics printed. -/
structure PState where
  ctl_list : List Ctl
  pushes : List (Nat × Int)
  beep_pending : Bool
  errors : List String
deriving DecidableEq, Repr

/-- Write the val field of the entry at index i (the C code writes through
a pointer to the node). -/
def setCtlVal (l : List Ctl) (i : Nat) (v : Int) : List Ctl :=
  match l.get? i with
  | none => l
  | some c => l.set i { c with val := v }

/-- The current-entry search loop of setval_sel (src/sndiokeys.c:358-365):
starting at index i, follow nextent while the value is zero; none models
the NULL exit taken when the chain runs out. -/
def findCurIdx (l : List Ctl) (i : Nat) : Option Nat :=
  match h : l.get? i with
  | none => none
  | some c =>
    if c.val ≠ 0 then some i
    else
      match hj : nextentIdx l i with
      | none => none
      | some j => findCurIdx l j
termination_by l.length - i
decreasing_by
  have hi : i < l.length := by
    cases Nat.lt_or_ge i l.length with
    | inl h1 => exact h1
    | inr h1 => rw [List.get?_eq_none.mpr h1] at h; cases h
  have hij : i < j := by
    unfold nextentIdx at hj
    rw [h] at hj
    rcases Option.map_eq_some'.mp hj with ⟨off, _, hoff⟩
    omega
  omega

/-- change the current entry of a selector control group (setval_sel,
src/sndiokeys.c:348-385); first is the index of the group member setval
called it with. -/
def setval_sel (silent : Bool) (s : PState) (first : Nat) (dir : Int) : PState :=
  if dir ≠ 0 then s
  else
    match findCurIdx s.ctl_list first with
    | none => { s with errors := s.errors ++ ["no current value"] }
    | some cur =>
      let next := (nextentIdx s.ctl_list cur).getD first
      if next = cur then { s with errors := s.errors ++ ["no next value"] }
      else
        let nextaddr := ((s.ctl_list.get? next).map (fun c => c.desc.addr)).getD 0
        { s with
          ctl_list := setCtlVal (setCtlVal s.ctl_list cur 0) next 1,
          pushes := s.pushes ++ [(nextaddr, 1)],
          beep_pending := s.beep_pending || !silent }

/-- change a numeric or switch control (setval_num, src/sndiokeys.c:387-413);
i is the index of the entry.  C's boolean flip val ^ 1 is written as the
equivalent parity flip on Int. -/
def setval_num (silent : Bool) (s : PState) (i : Nat) (dir : Int) : PState :=
  match s.ctl_list.get? i with
  | none => s
  | some c =>
    if 1 < c.desc.maxval ∧ dir ≠ 0 then
      let incr : Int := (((c.desc.maxval + NSTEP - 1) / NSTEP : Nat) : Int)
      let v0 := c.val + dir * incr
      let v1 := if v0 < 0 then 0 else v0
      let v2 := if v1 > (c.desc.maxval : Int) then (c.desc.maxval : Int) else v1
      if v2 = c.val then s
      else
        { s with
          ctl_list := setCtlVal s.ctl_list i v2,
          pushes := s.pushes ++ [(c.desc.addr, v2)],
          beep_pending := s.beep_pending || !silent }
    else if c.desc.maxval = 1 ∧ dir = 0 then
      let v2 := if c.val % 2 = 0 then c.val + 1 else c.val - 1
      { s with
        ctl_list := setCtlVal s.ctl_list i v2,
        pushes := s.pushes ++ [(c.desc.addr, v2)],
        beep_pending := s.beep_pending || !silent }
    else s

/-- The edit applied by setval's loop body to the block starting at index i
(src/sndiokeys.c:432-439): if the entry has empty group and the requested
name and func, dispatch on its type to setval_sel or setval_num. -/
def setvalStep (silent : Bool) (name func : String) (dir : Int)
    (s : PState) (i : Nat) (c : Ctl) : PState :=
  if c.desc.group = "" ∧ c.desc.node0.name = name ∧ c.desc.func = func then
    if c.desc.type = SIOCTL_SEL then setval_sel silent s i dir
    else setval_num silent s i dir
  else s

/-- The traversal loop of setval (src/sndiokeys.c:428-441): visit the first
member of each (group, name, func, unit) block via nextctl; for the blocks
matching the empty group and the requested name and func, apply the
selector or numeric edit according to the entry's type. -/
def setvalLoop (silent : Bool) (name func : String) (dir : Int) (s : PState) (i : Nat) : PState :=
  match h : s.ctl_list.get? i with
  | none => s
  | some c =>
    let s1 := setvalStep silent name func dir s i c
    match hj : nextctlIdx s1.ctl_list i with
    | none => s1
    | some j => setvalLoop silent name func dir s1 j
termination_by s.ctl_list.length - i
decreasing_by
  have hset : ∀ (l : List Ctl) (k : Nat) (v : Int), (setCtlVal l k v).length = l.length := by
    intro l k v
    unfold setCtlVal
    cases l.get? k with
    | none => rfl
    | some c => simp [List.length_set]
  have hsel : ∀ (b : Bool) (st : PState) (f : Nat) (d : Int),
      (setval_sel b st f d).ctl_list.length = st.ctl_list.length := by
    intro b st f d
    unfold setval_sel
    split_ifs
    · rfl
    · cases findCurIdx st.ctl_list f with
      | none => rfl
      | some cur => dsimp only; split_ifs <;> simp [hset]
  have hnum : ∀ (b : Bool) (st : PState) (k : Nat) (d : Int),
      (setval_num b st k d).ctl_list.length = st.ctl_list.length := by
    intro b st k d
    unfold setval_num
    cases st.ctl_list.get? k with
    | none => rfl
    | some c => dsimp only; split_ifs <;> simp [hset]
  have hi : i < s.ctl_list.length := by
    cases Nat.lt_or_ge i s.ctl_list.length with
    | inl h1 => exact h1
    | inr h1 => rw [List.get?_eq_none.mpr h1] at h; cases h
  have hkey : ∀ (st : PState), st.ctl_list.length = s.ctl_list.length →
      nextctlIdx st.ctl_list i = some j →
      st.ctl_list.length - j < s.ctl_list.length - i := by
    intro st hl hj2
    have hij : i < j := by
      unfold nextctlIdx at hj2
      cases h2 : st.ctl_list.get? i with
      | none => rw [h2] at hj2; cases hj2
      | some c2 =>
        rw [h2] at hj2
        rcases Option.map_eq_some'.mp hj2 with ⟨off, _, hoff⟩
        omega
    omega
  unfold_let s1 at hj ⊢
  unfold setvalStep at hj ⊢
  split_ifs at hj ⊢
  · exact hkey _ (hsel ..) hj
  · exact hkey _ (hnum ..) hj
  · exact hkey _ rfl hj

/-- change the control (setval, src/sndiokeys.c:418-442), assuming the
sioctl transport is open (the lazy-reconnect guard is modelled by
ctl_open below). -/
def setval (silent : Bool) (name func : String) (dir : Int) (s : PState) : PState :=
  setvalLoop silent name func dir s 0


/-- Result of ctl_open: the C return value, whether ctl_hdl is non-NULL
afterwards, the updated global fd budget, the stderr messages printed, and
the process exit taken by the function, if any. -/
structure CtlOpenResult where
  ret : Bool
  hdl_open : Bool
  maxfds : Nat
  messages : List String
  exit_code : Option Nat
deriving DecidableEq, Repr

/-- ctl_open (src/sndiokeys.c:310-331).  open_ok models whether the external
sioctl_open call succeeds, ctl_nfds models sioctl_nfds(ctl_hdl), and maxfds
is the current value of the global fd counter.  The function contains no
exit call, so exit_code is none on every path. -/
def ctl_open (open_ok : Bool) (ctl_nfds : Nat) (maxfds : Nat) : CtlOpenResult :=
  if !open_ok then
    { ret := false, hdl_open := false, maxfds := maxfds,
      messages := ["couldn't open audio device"], exit_code := none }
  else if ctl_nfds + maxfds ≥ MAXFDS then
    { ret := false, hdl_open := false, maxfds := maxfds,
      messages := ["too many fds"], exit_code := none }
  else
    { ret := true, hdl_open := true, maxfds := maxfds + ctl_nfds,
      messages := ["maxfds updated"], exit_code := none }

/-- One key binding (struct key, src/sndiokeys.c:64-73).  code and map are
only filled in by grab_keys from the X server; add_key leaves them at the
placeholder values 0 below (the C leaves them uninitialized). -/
structure Key where
  modmask : Nat
  sym : Nat
  code : Nat
  map : Nat → Nat
  name : String
  func : String
  dir : Int

/-- add key binding, removing old binding for the same function
(add_key, src/sndiokeys.c:523-552): one pass deletes every binding with the
same (name, func, dir), then the new binding is appended at the tail. -/
def add_key (modmask sym : Nat) (name func : String) (dir : Int) (l : List Key) : List Key :=
  l.filter (fun k => !(k.name == name && k.func == func && k.dir == dir))
    ++ [{ modmask := modmask, sym := sym, code := 0, map := fun _ => 0,
          name := name, func := func, dir := dir }]

/-- One add_key invocation's arguments. -/
structure BindOp where
  modmask : Nat
  sym : Nat
  name : String
  func : String
  dir : Int

/-- A sequence of add_key calls applied to the initially empty key_list. -/
def applyBinds (ops : List BindOp) : List Key :=
  ops.foldl (fun l op => add_key op.modmask op.sym op.name op.func op.dir l) []

/-- The key-press dispatch condition of the main loop
(src/sndiokeys.c:766-768): the event keycode equals the binding's grabbed
keycode, the binding's keymap row at the event's Shift state yields the
binding's keysym, and the binding's modifier mask equals the event state
restricted to MODMASK. -/
def key_match (k : Key) (keycode state : Nat) : Bool :=
  keycode == k.code && k.map (state &&& ShiftMask) == k.sym
    && k.modmask == (state &&& MODMASK)

/-- grab_keys' resolution step (src/sndiokeys.c:470-473): the X server
resolves each binding's keysym to a keycode and a keymap row. -/
def grab_keys (resolve : Nat → Nat × (Nat → Nat)) (l : List Key) : List Key :=
  l.map (fun k => { k with code := (resolve k.sym).1, map := (resolve k.sym).2 })

/-- Lexicographic key realising cmpdesc's order: group, node0 name, type,
func, node0 unit, then (for selectors only) node1 name and node1 unit. -/
abbrev DescKey :=
  String ×ₗ (String ×ₗ (Int ×ₗ (String ×ₗ (Int ×ₗ (String ×ₗ Int)))))

/-- The node1 part of the key: compared only for selector entries. -/
def selkey (d : SioctlDesc) : String × Int :=
  if d.type = SIOCTL_SEL then (d.node1.name, d.node1.unit) else ("", 0)

/-- The sort key of a descriptor. -/
def desckey (d : SioctlDesc) : DescKey :=
  toLex (d.group, toLex (d.node0.name, toLex ((d.type : Int),
    toLex (d.func, toLex (d.node0.unit, toLex (selkey d))))))

/-- The (group, name, kind, func) prefix of the sort key. -/
def key4 (d : SioctlDesc) : String ×ₗ (String ×ₗ (Int ×ₗ String)) :=
  toLex (d.group, toLex (d.node0.name, toLex ((d.type : Int), d.func)))

/-- The registry held in the order maintained by ondesc's sorted insert. -/
abbrev SortedCtl (l : List Ctl) : Prop :=
  l.Pairwise (fun a b => cmpdesc a.desc b.desc ≤ 0)

/-- Entries sharing (group, name, func) are contiguous: whenever two
entries of the list agree on those fields, so does everything between
them.  This is the contiguity property claimed by the spec. -/
abbrev ContigGNF (l : List Ctl) : Prop :=
  ∀ k, (hk : k < l.length) → ∀ j, (hj : j < k) → ∀ i, (hi : i < j) →
    samegnf (l.get ⟨i, Nat.lt_trans hi (Nat.lt_trans hj hk)⟩).desc (l.get ⟨k, hk⟩).desc →
    samegnf (l.get ⟨i, Nat.lt_trans hi (Nat.lt_trans hj hk)⟩).desc (l.get ⟨j, Nat.lt_trans hj hk⟩).desc

/-- Two descriptors share group, node0 name, kind and func. -/
def samegnkf (a b : SioctlDesc) : Prop :=
  samegnf a b ∧ a.type = b.type

instance (a b : SioctlDesc) : Decidable (samegnkf a b) := by
  unfold samegnkf; infer_instance

/-- Entries sharing (group, name, kind, func) are contiguous. -/
abbrev ContigGNKF (l : List Ctl) : Prop :=
  ∀ k, (hk : k < l.length) → ∀ j, (hj : j < k) → ∀ i, (hi : i < j) →
    samegnkf (l.get ⟨i, Nat.lt_trans hi (Nat.lt_trans hj hk)⟩).desc (l.get ⟨k, hk⟩).desc →
    samegnkf (l.get ⟨i, Nat.lt_trans hi (Nat.lt_trans hj hk)⟩).desc (l.get ⟨j, Nat.lt_trans hj hk⟩).desc

/-- Selector exclusivity over the sibling set of d (the entries sharing
group, node0 name, func and node0 unit with d): every sibling's value is
0 or 1, and no two distinct siblings both hold value 1. -/
abbrev SelInv (d : SioctlDesc) (l : List Ctl) : Prop :=
  (∀ k, (hk : k < l.length) → samegrp d (l.get ⟨k, hk⟩).desc →
    (l.get ⟨k, hk⟩).val = 0 ∨ (l.get ⟨k, hk⟩).val = 1) ∧
  (∀ k1, (h1 : k1 < l.length) → ∀ k2, (h2 : k2 < l.length) → k1 ≠ k2 →
    samegrp d (l.get ⟨k1, h1⟩).desc → samegrp d (l.get ⟨k2, h2⟩).desc →
    ¬((l.get ⟨k1, h1⟩).val = 1 ∧ (l.get ⟨k2, h2⟩).val = 1))

/-- All addresses in the registry are distinct (they are while the controls
exist, and ondesc maintains this from the empty list). -/
abbrev AddrUnique (l : List Ctl) : Prop :=
  l.Pairwise (fun a b => a.desc.addr ≠ b.desc.addr)

/-- Fuel-indexed mirror of findCurIdx, used to evaluate it on concrete
inputs by kernel reduction; findCurFuel_eq_findCurIdx proves it agrees with
findCurIdx whenever the fuel covers the list length. -/
def findCurFuel (l : List Ctl) : Nat → Nat → Option Nat
  | 0, _ => none
  | n + 1, i =>
    match l.get? i with
    | none => none
    | some c =>
      if c.val ≠ 0 then some i
      else
        match nextentIdx l i with
        | none => none
        | some j => findCurFuel l n j

/-- Fuel-based mirror of setval_sel (same text, with findCurIdx replaced by
findCurFuel at full fuel). -/
def setval_selF (silent : Bool) (s : PState) (first : Nat) (dir : Int) : PState :=
  if dir ≠ 0 then s
  else
    match findCurFuel s.ctl_list s.ctl_list.length first with
    | none => { s with errors := s.errors ++ ["no current value"] }
    | some cur =>
      let next := (nextentIdx s.ctl_list cur).getD first
      if next = cur then { s with errors := s.errors ++ ["no next value"] }
      else
        let nextaddr := ((s.ctl_list.get? next).map (fun c => c.desc.addr)).getD 0
        { s with
          ctl_list := setCtlVal (setCtlVal s.ctl_list cur 0) next 1,
          pushes := s.pushes ++ [(nextaddr, 1)],
          beep_pending := s.beep_pending || !silent }

/-- Fuel-based mirror of setvalStep (setval_sel replaced by setval_selF). -/
def setvalStepF (silent : Bool) (name func : String) (dir : Int)
    (s : PState) (i : Nat) (c : Ctl) : PState :=
  if c.desc.group = "" ∧ c.desc.node0.name = name ∧ c.desc.func = func then
    if c.desc.type = SIOCTL_SEL then setval_selF silent s i dir
    else setval_num silent s i dir
  else s

/-- Fuel-indexed mirror of setvalLoop. -/
def setvalFuel (silent : Bool) (name func : String) (dir : Int) :
    Nat → PState → Nat → PState
  | 0, s, _ => s
  | n + 1, s, i =>
    match s.ctl_list.get? i with
    | none => s
    | some c =>
      let s1 := setvalStepF silent name func dir s i c
      match nextctlIdx s1.ctl_list i with
      | none => s1
      | some j => setvalFuel silent name func dir n s1 j

/-- Fuel-based mirror of setval. -/
def setvalF (silent : Bool) (name func : String) (dir : Int) (s : PState) : PState :=
  setvalFuel silent name func dir s.ctl_list.length s 0

/-- Selector descriptor of the three-option example group: group "",
name "dev", func "device", unit 0; opt is the node1 label, a the address. -/
def mkSel (opt : String) (a : Nat) : SioctlDesc :=
  { addr := a, type := SIOCTL_SEL, func := "device", group := "",
    node0 := ⟨"dev", 0⟩, node1 := ⟨opt, 0⟩, maxval := 1 }

def selA : SioctlDesc := mkSel "optA" 1

def selB : SioctlDesc := mkSel "optB" 2

def selC : SioctlDesc := mkSel "optC" 3

/-- The Cycle example group of the spec: A(0), B(1), C(0) in order. -/
def l3sel : List Ctl := [⟨selA, 0⟩, ⟨selB, 1⟩, ⟨selC, 0⟩]

def s3sel : PState := ⟨l3sel, [], false, []⟩

/-- Arrival events producing the same selector group with the all-ones-free
invariant broken upstream: values 1, 0, 1. -/
def evs1sel : List DescEv := [⟨some selA, 1⟩, ⟨some selB, 0⟩, ⟨some selC, 1⟩]

/-- Numeric level control with maxval 100 (quantization example). -/
def numDesc : SioctlDesc :=
  { addr := 7, type := SIOCTL_NUM, func := "level", group := "",
    node0 := ⟨"output", 0⟩, node1 := ⟨"", 0⟩, maxval := 100 }

def s100 : PState := ⟨[⟨numDesc, 0⟩], [], false, []⟩

/-- n Increase edits applied to the maxval-100 control starting from 0. -/
def incIter (n : Nat) : PState :=
  (fun s => setval_num false s 0 1)^[n] s100

/-- Two selector entries sharing (group, name, func) but with different
node0 units (e.g. two channels), used to probe the group notion of onval. -/
def d5A : SioctlDesc :=
  { addr := 1, type := SIOCTL_SEL, func := "device", group := "",
    node0 := ⟨"dev", 0⟩, node1 := ⟨"optA", 0⟩, maxval := 1 }

def d5B : SioctlDesc :=
  { addr := 2, type := SIOCTL_SEL, func := "device", group := "",
    node0 := ⟨"dev", 1⟩, node1 := ⟨"optB", 0⟩, maxval := 1 }

def l5 : List Ctl := [⟨d5A, 0⟩, ⟨d5B, 1⟩]

/-- Three descriptors sharing (group, name) where the middle one (by sort
order) has a different func: output.level as a numeric, output.mute as a
numeric, output.level as a switch. -/
def d4L1 : SioctlDesc :=
  { addr := 1, type := SIOCTL_NUM, func := "level", group := "",
    node0 := ⟨"output", 0⟩, node1 := ⟨"", 0⟩, maxval := 127 }

def d4M : SioctlDesc :=
  { addr := 2, type := SIOCTL_NUM, func := "mute", group := "",
    node0 := ⟨"output", 0⟩, node1 := ⟨"", 0⟩, maxval := 1 }

def d4L2 : SioctlDesc :=
  { addr := 3, type := SIOCTL_SW, func := "level", group := "",
    node0 := ⟨"output", 0⟩, node1 := ⟨"", 0⟩, maxval := 1 }

def evs4 : List DescEv := [⟨some d4L1, 60⟩, ⟨some d4M, 0⟩, ⟨some d4L2, 1⟩]

/-- A concrete resolved key binding for witnesses: Ctrl+Mod1, keysym 43,
keycode 10, every shift state resolving to keysym 43. -/
def key0 : Key :=
  { modmask := ControlMask ||| Mod1Mask, sym := 43, code := 10,
    map := fun _ => 43, name := "output", func := "level", dir := 1 }

theorem nextentIdx_lt {l : List Ctl} {i j : Nat} (h : nextentIdx l i = some j) : i < j := by
  unfold nextentIdx at h
  cases hg : l.get? i with
  | none => rw [hg] at h; cases h
  | some c =>
    rw [hg] at h
    rcases Option.map_eq_some'.mp h with ⟨off, _, hoff⟩
    omega

theorem nextctlIdx_lt {l : List Ctl} {i j : Nat} (h : nextctlIdx l i = some j) : i < j := by
  unfold nextctlIdx at h
  cases hg : l.get? i with
  | none => rw [hg] at h; cases h
  | some c =>
    rw [hg] at h
    rcases Option.map_eq_some'.mp h with ⟨off, _, hoff⟩
    omega

theorem setCtlVal_length (l : List Ctl) (i : Nat) (v : Int) :
    (setCtlVal l i v).length = l.length := by
  unfold setCtlVal
  cases l.get? i with
  | none => rfl
  | some c => simp

theorem setval_sel_length (silent : Bool) (s : PState) (f : Nat) (dir : Int) :
    (setval_sel silent s f dir).ctl_list.length = s.ctl_list.length := by
  unfold setval_sel
  split_ifs
  · rfl
  · cases findCurIdx s.ctl_list f with
    | none => rfl
    | some cur => dsimp only; split_ifs <;> simp [setCtlVal_length]

theorem setval_num_length (silent : Bool) (s : PState) (i : Nat) (dir : Int) :
    (setval_num silent s i dir).ctl_list.length = s.ctl_list.length := by
  unfold setval_num
  cases s.ctl_list.get? i with
  | none => rfl
  | some c => dsimp only; split_ifs <;> simp [setCtlVal_length]

theorem findCurIdx_eq (l : List Ctl) (i : Nat) :
    findCurIdx l i =
      match l.get? i with
      | none => none
      | some c =>
        if c.val ≠ 0 then some i
        else
          match nextentIdx l i with
          | none => none
          | some j => findCurIdx l j := by
  rw [findCurIdx.eq_def]
  cases l.get? i with
  | none => rfl
  | some c =>
    dsimp only
    split_ifs with h
    · rfl
    · cases nextentIdx l i <;> rfl

theorem findCurFuel_eq (l : List Ctl) :
    ∀ n i, l.length ≤ n + i → findCurFuel l n i = findCurIdx l i := by
  intro n
  induction n with
  | zero =>
    intro i hi
    have heq : l.get? i = none := List.get?_eq_none.mpr (by omega)
    rw [findCurIdx_eq, heq]
    rfl
  | succ n ih =>
    intro i hi
    rw [findCurIdx_eq]
    cases heq : l.get? i with
    | none => simp only [findCurFuel, heq]
    | some c =>
      simp only [findCurFuel, heq]
      split_ifs with hval
      · rfl
      · cases hj : nextentIdx l i with
        | none => rfl
        | some j => exact ih j (by have := nextentIdx_lt hj; omega)

theorem setval_selF_eq (silent : Bool) (s : PState) (f : Nat) (dir : Int) :
    setval_selF silent s f dir = setval_sel silent s f dir := by
  unfold setval_selF setval_sel
  rw [findCurFuel_eq s.ctl_list s.ctl_list.length f (Nat.le_add_right _ _)]

theorem setvalStep_length (silent : Bool) (name func : String) (dir : Int)
    (s : PState) (i : Nat) (c : Ctl) :
    (setvalStep silent name func dir s i c).ctl_list.length = s.ctl_list.length := by
  unfold setvalStep
  split_ifs
  · exact setval_sel_length ..
  · exact setval_num_length ..
  · rfl

theorem setvalStepF_eq (silent : Bool) (name func : String) (dir : Int)
    (s : PState) (i : Nat) (c : Ctl) :
    setvalStepF silent name func dir s i c = setvalStep silent name func dir s i c := by
  unfold setvalStepF setvalStep
  rw [setval_selF_eq]

theorem setvalLoop_eq (silent : Bool) (name func : String) (dir : Int)
    (s : PState) (i : Nat) :
    setvalLoop silent name func dir s i =
      match s.ctl_list.get? i with
      | none => s
      | some c =>
        match nextctlIdx (setvalStep silent name func dir s i c).ctl_list i with
        | none => setvalStep silent name func dir s i c
        | some j =>
          setvalLoop silent name func dir (setvalStep silent name func dir s i c) j := by
  rw [setvalLoop.eq_def]
  cases s.ctl_list.get? i with
  | none => rfl
  | some c =>
    dsimp only
    cases nextctlIdx (setvalStep silent name func dir s i c).ctl_list i <;> rfl

theorem setvalFuel_eq (silent : Bool) (name func : String) (dir : Int) :
    ∀ n (s : PState) i, s.ctl_list.length ≤ n + i →
      setvalFuel silent name func dir n s i = setvalLoop silent name func dir s i := by
  intro n
  induction n with
  | zero =>
    intro s i hi
    have heq : s.ctl_list.get? i = none := List.get?_eq_none.mpr (by omega)
    rw [setvalLoop_eq, heq]
    rfl
  | succ n ih =>
    intro s i hi
    rw [setvalLoop_eq]
    cases heq : s.ctl_list.get? i with
    | none => simp only [setvalFuel, heq]
    | some c =>
      simp only [setvalFuel, heq, setvalStepF_eq]
      cases hj : nextctlIdx (setvalStep silent name func dir s i c).ctl_list i with
      | none => rfl
      | some j =>
        apply ih
        have h1 := setvalStep_length silent name func dir s i c
        have h2 := nextctlIdx_lt hj
        omega

theorem setvalF_eq (silent : Bool) (name func : String) (dir : Int) (s : PState) :
    setvalF silent name func dir s = setval silent name func dir s := by
  unfold setvalF setval
  exact setvalFuel_eq silent name func dir s.ctl_list.length s 0 (by omega)

/-- C10: an onval notification whose address matches no entity currently in
the registry leaves the registry completely unchanged. -/
theorem C10_onval_unknown_addr (l : List Ctl) (addr : Nat) (v : Int)
    (h : ∀ c ∈ l, c.desc.addr ≠ addr) : onval addr v l = l := by
  have hf : l.find? (fun c => c.desc.addr == addr) = none := by
    apply List.find?_eq_none.mpr
    intro c hc
    simpa using h c hc
  unfold onval
  rw [hf]

theorem C10_witness : onval 5 3 [⟨d5A, 0⟩] = [⟨d5A, 0⟩] :=
  C10_onval_unknown_addr _ _ _ (by decide)

/-- C8 counterexample: with the transport opening successfully but the fd
budget exceeded (sioctl_nfds 10, maxfds 60, 10 + 60 ≥ MAXFDS = 64),
ctl_open reports "too many fds" and returns failure, but does not exit the
process — contradicting the claim that this situation is fatal with exit
status 1. -/
theorem C8_counterexample :
    (ctl_open true 10 60).exit_code = none ∧
    (ctl_open true 10 60).messages = ["too many fds"] ∧
    (ctl_open true 10 60).ret = false := by decide

/-- C8 (amended): when opening the audio-control transport would exceed the
maximum number of pollable descriptors, the condition is reported ("too
many fds"), the handle is closed and the open fails; the process keeps
running (ctl_open takes no exit path) and the caller's edit becomes a
no-op. -/
theorem C8_fd_exhaustion (ctl_nfds maxfds : Nat)
    (hfd : ctl_nfds + maxfds ≥ MAXFDS) :
    (ctl_open true ctl_nfds maxfds).ret = false ∧
    (ctl_open true ctl_nfds maxfds).hdl_open = false ∧
    (ctl_open true ctl_nfds maxfds).maxfds = maxfds ∧
    (ctl_open true ctl_nfds maxfds).messages = ["too many fds"] ∧
    (ctl_open true ctl_nfds maxfds).exit_code = none := by
  unfold ctl_open
  simp [hfd]

theorem C8_witness :
    (ctl_open true 10 60).ret = false ∧
    (ctl_open true 10 60).hdl_open = false ∧
    (ctl_open true 10 60).maxfds = 60 ∧
    (ctl_open true 10 60).messages = ["too many fds"] ∧
    (ctl_open true 10 60).exit_code = none :=
  C8_fd_exhaustion 10 60 (by decide)

theorem add_key_filter (l : List Key) (m sym : Nat) (n f : String) (d : Int) :
    (add_key m sym n f d l).filter
        (fun k => k.name == n && k.func == f && k.dir == d) =
      [{ modmask := m, sym := sym, code := 0, map := fun _ => 0,
         name := n, func := f, dir := d }] := by
  unfold add_key
  rw [List.filter_append]
  have h1 : (l.filter fun k => !(k.name == n && k.func == f && k.dir == d)).filter
      (fun k => k.name == n && k.func == f && k.dir == d) = [] := by
    rw [List.filter_filter]
    have hb : ∀ (k : Key), ((k.name == n && k.func == f && k.dir == d) &&
        !(k.name == n && k.func == f && k.dir == d)) = false := by
      intro k
      cases (k.name == n && k.func == f && k.dir == d) <;> rfl
    simp only [hb]
    exact List.filter_false l
  rw [h1]
  simp

/-- C6: after any sequence of add_key operations starting from the empty
key list, at most one binding exists per (name, func, dir) triple; and
add_key is last-wins: afterwards the bindings matching the triple just
bound are exactly the one just inserted, carrying the new modmask and
keysym. -/
theorem C6_binding_override :
    (∀ (ops : List BindOp) (n f : String) (d : Int),
      (applyBinds ops).countP
        (fun k => k.name == n && k.func == f && k.dir == d) ≤ 1) ∧
    (∀ (l : List Key) (m sym : Nat) (n f : String) (d : Int),
      (add_key m sym n f d l).filter
          (fun k => k.name == n && k.func == f && k.dir == d) =
        [{ modmask := m, sym := sym, code := 0, map := fun _ => 0,
           name := n, func := f, dir := d }]) := by
  constructor
  · have key : ∀ (ops : List BindOp) (acc : List Key),
        (∀ (n f : String) (d : Int),
          acc.countP (fun k => k.name == n && k.func == f && k.dir == d) ≤ 1) →
        ∀ (n f : String) (d : Int),
          (ops.foldl (fun l op => add_key op.modmask op.sym op.name op.func op.dir l)
              acc).countP
            (fun k => k.name == n && k.func == f && k.dir == d) ≤ 1 := by
      intro ops
      induction ops with
      | nil => exact fun acc h => h
      | cons op ops ih =>
        intro acc hacc
        apply ih
        intro n f d
        dsimp only
        have hc := congrArg List.length (add_key_filter acc op.modmask op.sym op.name op.func op.dir)
        rw [← List.countP_eq_length_filter] at hc
        simp only [List.length_singleton] at hc
        by_cases hsame : ((n = op.name) ∧ (f = op.func) ∧ (d = op.dir))
        · rcases hsame with ⟨e1, e2, e3⟩
          subst e1; subst e2; subst e3
          omega
        · unfold add_key
          rw [List.countP_append]
          have h2 : List.countP (fun k => k.name == n && k.func == f && k.dir == d)
              [({ modmask := op.modmask, sym := op.sym, code := 0, map := fun _ => 0,
                  name := op.name, func := op.func, dir := op.dir } : Key)] = 0 := by
            have hnot : ¬(op.name = n ∧ op.func = f ∧ op.dir = d) := by
              intro ⟨a1, a2, a3⟩
              exact hsame ⟨a1.symm, a2.symm, a3.symm⟩
            cases hb : (op.name == n && op.func == f && op.dir == d) with
            | true =>
              exfalso
              simp only [Bool.and_eq_true, beq_iff_eq] at hb
              exact hnot ⟨hb.1.1, hb.1.2, hb.2⟩
            | false => simp [List.countP_cons, hb]
          rw [h2]
          have h3 : (acc.filter
              (fun k => !(k.name == op.name && k.func == op.func && k.dir == op.dir))).countP
              (fun k => k.name == n && k.func == f && k.dir == d) ≤
              acc.countP (fun k => k.name == n && k.func == f && k.dir == d) :=
            (List.filter_sublist acc).countP_le _
          have h4 := hacc n f d
          omega
    exact fun ops => key ops [] (by intro n f d; simp)
  · exact add_key_filter

/-- C7: a key press triggers a binding exactly when the event keycode is
the binding's resolved keycode, the binding's keymap row at the event's
Shift state yields the binding's keysym, and the binding's modifier mask
equals the event state restricted to MODMASK = Control|Mod1|Mod4; state
bits outside ShiftMask and MODMASK — such as Caps Lock (LockMask) and Num
Lock (Mod2Mask) — never affect whether a binding matches (Shift itself
enters only through keysym resolution, as the claim's resolution clause
states). -/
theorem C7_key_matching :
    (∀ (k : Key) (keycode state : Nat),
      key_match k keycode state = true ↔
        (keycode = k.code ∧ k.map (state &&& ShiftMask) = k.sym ∧
         k.modmask = state &&& MODMASK)) ∧
    (∀ (k : Key) (keycode state state' : Nat),
      state &&& (ShiftMask ||| MODMASK) = state' &&& (ShiftMask ||| MODMASK) →
      key_match k keycode state = key_match k keycode state') ∧
    (∀ (k : Key) (keycode state : Nat),
      key_match k keycode (state ^^^ LockMask) = key_match k keycode state ∧
      key_match k keycode (state ^^^ Mod2Mask) = key_match k keycode state) := by
  have hmask : ∀ (st st' : Nat),
      st &&& (ShiftMask ||| MODMASK) = st' &&& (ShiftMask ||| MODMASK) →
      st &&& ShiftMask = st' &&& ShiftMask ∧ st &&& MODMASK = st' &&& MODMASK := by
    intro st st' h
    have h1 : (ShiftMask ||| MODMASK) &&& ShiftMask = ShiftMask := by decide
    have h2 : (ShiftMask ||| MODMASK) &&& MODMASK = MODMASK := by decide
    constructor
    · calc st &&& ShiftMask = st &&& ((ShiftMask ||| MODMASK) &&& ShiftMask) := by rw [h1]
        _ = st &&& (ShiftMask ||| MODMASK) &&& ShiftMask := by rw [Nat.and_assoc]
        _ = st' &&& (ShiftMask ||| MODMASK) &&& ShiftMask := by rw [h]
        _ = st' &&& ((ShiftMask ||| MODMASK) &&& ShiftMask) := by rw [Nat.and_assoc]
        _ = st' &&& ShiftMask := by rw [h1]
    · calc st &&& MODMASK = st &&& ((ShiftMask ||| MODMASK) &&& MODMASK) := by rw [h2]
        _ = st &&& (ShiftMask ||| MODMASK) &&& MODMASK := by rw [Nat.and_assoc]
        _ = st' &&& (ShiftMask ||| MODMASK) &&& MODMASK := by rw [h]
        _ = st' &&& ((ShiftMask ||| MODMASK) &&& MODMASK) := by rw [Nat.and_assoc]
        _ = st' &&& MODMASK := by rw [h2]
  have hinv : ∀ (k : Key) (keycode state state' : Nat),
      state &&& (ShiftMask ||| MODMASK) = state' &&& (ShiftMask ||| MODMASK) →
      key_match k keycode state = key_match k keycode state' := by
    intro k keycode state state' h
    unfold key_match
    rw [(hmask state state' h).1, (hmask state state' h).2]
  refine ⟨?_, hinv, ?_⟩
  · intro k keycode state
    simp [key_match, Bool.and_eq_true, beq_iff_eq, and_assoc]
  · intro k keycode state
    have hx : ∀ (m : Nat), m &&& (ShiftMask ||| MODMASK) = 0 →
        (state ^^^ m) &&& (ShiftMask ||| MODMASK) = state &&& (ShiftMask ||| MODMASK) := by
      intro m hm
      rw [Nat.and_xor_distrib_right, hm, Nat.xor_zero]
    exact ⟨hinv k keycode _ state (hx LockMask (by decide)),
           hinv k keycode _ state (hx Mod2Mask (by decide))⟩

theorem C7_witness :
    key_match key0 10 (ControlMask ||| Mod1Mask ||| LockMask) =
      key_match key0 10 (ControlMask ||| Mod1Mask) :=
  C7_key_matching.2.1 key0 10 _ _ (by decide)

/-- C2: for a numeric control with maxval > 1 and dir = ±1, setval_num uses
the step (maxval + NSTEP - 1) / NSTEP — the least k with maxval ≤ NSTEP*k,
i.e. ceil(maxval/NSTEP) — and writes current + dir*step clamped to
[0, maxval]; when the clamped value equals the current one nothing is
changed or pushed.  Concretely with maxval = 100: one Increase from 0
gives 5, twenty Increases give exactly 100, no prefix of those twenty
edits exceeds 100, and Decrease from 0 changes nothing. -/
theorem C2_quantization :
    (∀ (silent : Bool) (s : PState) (i : Nat) (dir : Int) (c : Ctl),
      s.ctl_list.get? i = some c → 1 < c.desc.maxval → dir = 1 ∨ dir = -1 →
      (c.desc.maxval ≤ NSTEP * ((c.desc.maxval + NSTEP - 1) / NSTEP) ∧
        NSTEP * ((c.desc.maxval + NSTEP - 1) / NSTEP - 1) < c.desc.maxval) ∧
      (min (max (c.val + dir * (((c.desc.maxval + NSTEP - 1) / NSTEP : Nat) : Int)) 0)
          (c.desc.maxval : Int) = c.val →
        setval_num silent s i dir = s) ∧
      (min (max (c.val + dir * (((c.desc.maxval + NSTEP - 1) / NSTEP : Nat) : Int)) 0)
          (c.desc.maxval : Int) ≠ c.val →
        setval_num silent s i dir =
          { s with
            ctl_list := setCtlVal s.ctl_list i
              (min (max (c.val + dir * (((c.desc.maxval + NSTEP - 1) / NSTEP : Nat) : Int)) 0)
                (c.desc.maxval : Int)),
            pushes := s.pushes ++ [(c.desc.addr,
              min (max (c.val + dir * (((c.desc.maxval + NSTEP - 1) / NSTEP : Nat) : Int)) 0)
                (c.desc.maxval : Int))],
            beep_pending := s.beep_pending || !silent })) ∧
    (incIter 1).ctl_list = [⟨numDesc, 5⟩] ∧
    (incIter 20).ctl_list = [⟨numDesc, 100⟩] ∧
    (∀ n, n < 21 → ∀ c ∈ (incIter n).ctl_list, c.val ≤ 100) ∧
    setval_num false s100 0 (-1) = s100 := by
  refine ⟨?_, by decide, by decide, by decide, by decide⟩
  intro silent s i dir c hget hmax hdir
  have hstep : c.desc.maxval ≤ NSTEP * ((c.desc.maxval + NSTEP - 1) / NSTEP) ∧
      NSTEP * ((c.desc.maxval + NSTEP - 1) / NSTEP - 1) < c.desc.maxval := by
    simp only [NSTEP]
    omega
  have hdir0 : dir ≠ 0 := by rcases hdir with h | h <;> simp [h]
  have hv2 : ∀ (v0 : Int),
      (if (if v0 < 0 then 0 else v0) > (c.desc.maxval : Int) then (c.desc.maxval : Int)
        else if v0 < 0 then 0 else v0) = min (max v0 0) (c.desc.maxval : Int) := by
    intro v0
    have : (0 : Int) ≤ (c.desc.maxval : Int) := Int.ofNat_nonneg _
    split_ifs <;> omega
  refine ⟨hstep, ?_, ?_⟩
  · intro heq
    unfold setval_num
    rw [hget]
    dsimp only
    rw [if_pos ⟨hmax, hdir0⟩, hv2, if_pos heq]
  · intro hne
    unfold setval_num
    rw [hget]
    dsimp only
    rw [if_pos ⟨hmax, hdir0⟩, hv2, if_neg hne]

theorem C2_witness :
    setval_num false s100 0 1 =
      { s100 with
        ctl_list := setCtlVal s100.ctl_list 0 (min (max ((0 : Int) + 1 *
          (((100 + NSTEP - 1) / NSTEP : Nat) : Int)) 0) ((100 : Nat) : Int)),
        pushes := s100.pushes ++ [(7, min (max ((0 : Int) + 1 *
          (((100 + NSTEP - 1) / NSTEP : Nat) : Int)) 0) ((100 : Nat) : Int))],
        beep_pending := s100.beep_pending || !false } :=
  (C2_quantization.1 false s100 0 1 ⟨numDesc, 0⟩ (by decide) (by decide)
    (Or.inl rfl)).2.2 (by decide)

/-- C9: the edit-rule combinations outside the three defined rules are
silent no-ops: a selector entry with dir ≠ 0 (Increase/Decrease) leaves
the whole state untouched; a numeric entry with maxval > 1 and dir = 0
(Cycle) is untouched; an entry with maxval = 1 and dir ≠ 0 is untouched —
no value change, no transport push, no feedback, no diagnostic; and the
setval traversal still continues past such a member to the next block. -/
theorem C9_noop_combos :
    (∀ (silent : Bool) (s : PState) (f : Nat) (dir : Int),
      dir ≠ 0 → setval_sel silent s f dir = s) ∧
    (∀ (silent : Bool) (s : PState) (i : Nat) (c : Ctl),
      s.ctl_list.get? i = some c → 1 < c.desc.maxval →
      setval_num silent s i 0 = s) ∧
    (∀ (silent : Bool) (s : PState) (i : Nat) (dir : Int) (c : Ctl),
      s.ctl_list.get? i = some c → c.desc.maxval = 1 → dir ≠ 0 →
      setval_num silent s i dir = s) ∧
    (∀ (silent : Bool) (name func : String) (dir : Int) (s : PState) (i j : Nat) (c : Ctl),
      s.ctl_list.get? i = some c → c.desc.type = SIOCTL_SEL → dir ≠ 0 →
      nextctlIdx s.ctl_list i = some j →
      setvalLoop silent name func dir s i = setvalLoop silent name func dir s j) := by
  have hsel : ∀ (silent : Bool) (s : PState) (f : Nat) (dir : Int),
      dir ≠ 0 → setval_sel silent s f dir = s := by
    intro silent s f dir h
    unfold setval_sel
    rw [if_pos h]
  refine ⟨hsel, ?_, ?_, ?_⟩
  · intro silent s i c hget hmax
    unfold setval_num
    rw [hget]
    dsimp only
    rw [if_neg (by simp), if_neg (by simp; omega)]
  · intro silent s i dir c hget hmax hdir
    unfold setval_num
    rw [hget]
    dsimp only
    rw [if_neg (by simp; omega), if_neg (by simp [hdir])]
  · intro silent name func dir s i j c hget hty hdir hj
    have hstep : setvalStep silent name func dir s i c = s := by
      unfold setvalStep
      by_cases h1 : (c.desc.group = "" ∧ c.desc.node0.name = name ∧ c.desc.func = func)
      · rw [if_pos h1, if_pos hty]
        exact hsel silent s i dir hdir
      · rw [if_neg h1]
    rw [setvalLoop_eq, hget]
    dsimp only
    rw [hstep, hj]

theorem C9_witness :
    setval_sel true s3sel 0 1 = s3sel ∧
    setval_num true s100 0 0 = s100 ∧
    setval_num true ⟨[⟨mkSel "optA" 9, 0⟩], [], false, []⟩ 0 1 =
      ⟨[⟨mkSel "optA" 9, 0⟩], [], false, []⟩ ∧
    setvalLoop true "dev" "device" 1 ⟨l3sel ++ [⟨numDesc, 0⟩], [], false, []⟩ 0 =
      setvalLoop true "dev" "device" 1 ⟨l3sel ++ [⟨numDesc, 0⟩], [], false, []⟩ 3 :=
  ⟨C9_noop_combos.1 true s3sel 0 1 (by decide),
   C9_noop_combos.2.1 true s100 0 ⟨numDesc, 0⟩ (by decide) (by decide),
   C9_noop_combos.2.2.1 true _ 0 1 ⟨mkSel "optA" 9, 0⟩ (by decide) (by decide) (by decide),
   C9_noop_combos.2.2.2 true "dev" "device" 1 ⟨l3sel ++ [⟨numDesc, 0⟩], [], false, []⟩ 0 3
     ⟨selA, 0⟩ (by decide) (by decide) (by decide) (by decide)⟩

theorem updFirstAddr_eq_map (addr : Nat) (v : Int) :
    ∀ (l : List Ctl), AddrUnique l →
      updFirstAddr addr v l =
        l.map (fun c => if c.desc.addr = addr then { c with val := v } else c) := by
  intro l
  induction l with
  | nil => intro _; rfl
  | cons a xs ih =>
    intro hu
    rcases List.pairwise_cons.mp hu with ⟨hhead, htail⟩
    unfold updFirstAddr
    by_cases ha : a.desc.addr = addr
    · rw [if_pos ha]
      simp only [List.map_cons, if_pos ha]
      congr 1
      have hfix : ∀ c ∈ xs,
          (if c.desc.addr = addr then ({ c with val := v } : Ctl) else c) = id c := by
        intro c hc
        rw [if_neg]
        · rfl
        · intro h
          exact (hhead c hc) (ha.trans h.symm)
      rw [List.map_congr_left hfix, List.map_id]
    · rw [if_neg ha]
      simp only [List.map_cons, if_neg ha]
      rw [ih htail]

/-- C5 counterexample: two selector entries sharing (group, name, func)
but with different node0 units; the one-hot notification for the first
leaves the second at value 1, where the claim (control group = entities
sharing (group, name, func)) demands it be set to 0. -/
theorem C5_counterexample :
    onval 1 7 l5 = [⟨d5A, 1⟩, ⟨d5B, 1⟩] ∧
    samegnf d5A d5B ∧ d5A.type = SIOCTL_SEL ∧ d5B.type = SIOCTL_SEL := by decide

/-- C5 (amended): applyExternalValue on a Selector entity sets value 1 on
that entity and value 0 on every other entity sharing (group, name, func,
unit-of-name) — not merely (group, name, func) — leaving all other entries
untouched; on an entity of any other kind it sets that entity's value
directly (the registry's addresses being unique). -/
theorem C5_applyExternalValue (l : List Ctl) (addr : Nat) (v : Int) (i : Ctl)
    (hu : AddrUnique l)
    (hf : l.find? (fun c => c.desc.addr == addr) = some i) :
    (i.desc.type = SIOCTL_SEL →
      onval addr v l = l.map (fun c =>
        if samegrp i.desc c.desc then
          { c with val := if c.desc.addr = addr then 1 else 0 } else c)) ∧
    (i.desc.type ≠ SIOCTL_SEL →
      onval addr v l = l.map (fun c =>
        if c.desc.addr = addr then { c with val := v } else c)) := by
  have haddr : i.desc.addr = addr := by
    have := List.find?_some hf
    simpa using this
  constructor
  · intro hty
    unfold onval
    rw [hf]
    dsimp only
    rw [if_pos hty]
    apply List.map_congr_left
    intro c hc
    by_cases hs : samegrp i.desc c.desc
    · rw [if_pos hs, if_pos hs]
      by_cases hca : c.desc.addr = addr
      · rw [if_pos (haddr.trans hca.symm), if_pos hca]
      · rw [if_neg (fun h => hca (h.symm.trans haddr)), if_neg hca]
    · rw [if_neg hs, if_neg hs]
  · intro hty
    unfold onval
    rw [hf]
    dsimp only
    rw [if_neg hty]
    exact updFirstAddr_eq_map addr v l hu

theorem C5_witness :
    onval 2 5 l3sel = l3sel.map (fun c =>
      if samegrp selB c.desc then
        { c with val := if c.desc.addr = 2 then 1 else 0 } else c) :=
  (C5_applyExternalValue l3sel 2 5 ⟨selB, 1⟩ (by decide) (by decide)).1 (by decide)

/-- C3: setval_sel with direction Cycle finds the current entry (the first
with nonzero value along the nextent chain); if none exists it reports "no
current value" and changes nothing; if advancing (wrapping to first) would
return to the same entry it reports "no next value" and changes nothing;
otherwise it zeroes the old entry, sets the new entry to 1, and pushes
exactly (new entry's address, 1) to the transport.  On the concrete group
[A(0), B(1), C(0)], one Cycle gives [A(0), B(0), C(1)] pushing (addr C, 1),
and a further Cycle gives [A(1), B(0), C(0)] pushing (addr A, 1). -/
theorem C3_selector_cycle :
    (∀ (silent : Bool) (s : PState) (f : Nat),
      findCurIdx s.ctl_list f = none →
      setval_sel silent s f 0 = { s with errors := s.errors ++ ["no current value"] }) ∧
    (∀ (silent : Bool) (s : PState) (f cur : Nat),
      findCurIdx s.ctl_list f = some cur →
      (nextentIdx s.ctl_list cur).getD f = cur →
      setval_sel silent s f 0 = { s with errors := s.errors ++ ["no next value"] }) ∧
    (∀ (silent : Bool) (s : PState) (f cur next : Nat) (nc : Ctl),
      findCurIdx s.ctl_list f = some cur →
      (nextentIdx s.ctl_list cur).getD f = next →
      next ≠ cur →
      s.ctl_list.get? next = some nc →
      setval_sel silent s f 0 =
        { s with
          ctl_list := setCtlVal (setCtlVal s.ctl_list cur 0) next 1,
          pushes := s.pushes ++ [(nc.desc.addr, 1)],
          beep_pending := s.beep_pending || !silent }) ∧
    (setval_sel false s3sel 0 0 =
      { ctl_list := [⟨selA, 0⟩, ⟨selB, 0⟩, ⟨selC, 1⟩],
        pushes := [(3, 1)], beep_pending := true, errors := [] }) ∧
    (setval_sel false ⟨[⟨selA, 0⟩, ⟨selB, 0⟩, ⟨selC, 1⟩], [(3, 1)], true, []⟩ 0 0 =
      { ctl_list := [⟨selA, 1⟩, ⟨selB, 0⟩, ⟨selC, 0⟩],
        pushes := [(3, 1), (1, 1)], beep_pending := true, errors := [] }) := by
  refine ⟨?_, ?_, ?_, by rw [← setval_selF_eq]; decide, by rw [← setval_selF_eq]; decide⟩
  · intro silent s f hnone
    unfold setval_sel
    rw [if_neg (by simp), hnone]
  · intro silent s f cur hcur hnext
    unfold setval_sel
    rw [if_neg (by simp), hcur]
    dsimp only
    rw [hnext, if_pos rfl]
  · intro silent s f cur next nc hcur hnext hne hget
    unfold setval_sel
    rw [if_neg (by simp), hcur]
    dsimp only
    rw [hnext, if_neg hne, hget]
    rfl

theorem C3_witness :
    setval_sel true ⟨[⟨selA, 0⟩, ⟨selB, 0⟩, ⟨selC, 0⟩], [], false, []⟩ 0 0 =
      { ctl_list := [⟨selA, 0⟩, ⟨selB, 0⟩, ⟨selC, 0⟩], pushes := [],
        beep_pending := false, errors := ["no current value"] } ∧
    setval_sel true ⟨[⟨selA, 1⟩], [], false, []⟩ 0 0 =
      { ctl_list := [⟨selA, 1⟩], pushes := [],
        beep_pending := false, errors := ["no next value"] } ∧
    setval_sel false s3sel 0 0 =
      { s3sel with
        ctl_list := setCtlVal (setCtlVal s3sel.ctl_list 1 0) 2 1,
        pushes := s3sel.pushes ++ [((⟨selC, 0⟩ : Ctl).desc.addr, 1)],
        beep_pending := s3sel.beep_pending || !false } :=
  ⟨C3_selector_cycle.1 true _ 0
    (by rw [← findCurFuel_eq _ 3 0 (by decide)]; decide),
   C3_selector_cycle.2.1 true _ 0 0
    (by rw [← findCurFuel_eq _ 1 0 (by decide)]; decide) (by decide),
   C3_selector_cycle.2.2.1 false s3sel 0 1 2 ⟨selC, 0⟩
    (by rw [← findCurFuel_eq _ 3 0 (by decide)]; decide)
    (by decide) (by decide) (by decide)⟩

theorem charListLt_iff : ∀ (l1 l2 : List Char),
    charListLt l1 l2 = true ↔ List.Lex (· < ·) l1 l2
  | [], [] => by
    unfold charListLt
    exact iff_of_false (by simp) (by intro h; cases h)
  | [], b :: bs => by
    unfold charListLt
    exact iff_of_true rfl List.Lex.nil
  | a :: as, [] => by
    unfold charListLt
    exact iff_of_false (by simp) (by intro h; cases h)
  | a :: as, b :: bs => by
    unfold charListLt
    by_cases h1 : a < b
    · rw [if_pos h1]
      exact iff_of_true rfl (List.Lex.rel h1)
    · rw [if_neg h1]
      by_cases h2 : b < a
      · rw [if_pos h2]
        apply iff_of_false (by simp)
        intro h
        cases h with
        | cons h3 => exact lt_irrefl _ h2
        | rel h3 => exact h1 h3
      · rw [if_neg h2]
        have hab : a = b := le_antisymm (not_lt.mp h2) (not_lt.mp h1)
        subst hab
        rw [charListLt_iff as bs]
        constructor
        · intro h
          exact List.Lex.cons h
        · intro h
          cases h with
          | cons h3 => exact h3
          | rel h3 => exact absurd h3 (lt_irrefl a)

theorem strLt_iff (a b : String) : strLt a b = true ↔ a < b := by
  rw [String.lt_iff_toList_lt]
  exact charListLt_iff a.data b.data

theorem strcmpInt_eq_zero_iff (a b : String) : strcmpInt a b = 0 ↔ a = b := by
  unfold strcmpInt
  split_ifs with h1 h2
  · exact iff_of_false (by norm_num) (ne_of_lt ((strLt_iff a b).mp h1))
  · exact iff_of_false (by norm_num) (Ne.symm (ne_of_lt ((strLt_iff b a).mp h2)))
  · refine iff_of_true rfl (le_antisymm ?_ ?_)
    · exact not_lt.mp (fun h => h2 ((strLt_iff b a).mpr h))
    · exact not_lt.mp (fun h => h1 ((strLt_iff a b).mpr h))

theorem strcmpInt_pos (a b : String) (h : b < a) : strcmpInt a b = 1 := by
  unfold strcmpInt
  rw [if_neg (fun hh => lt_asymm h ((strLt_iff a b).mp hh)), if_pos ((strLt_iff b a).mpr h)]

theorem strcmpInt_neg (a b : String) (h : a < b) : strcmpInt a b = -1 := by
  unfold strcmpInt
  rw [if_pos ((strLt_iff a b).mpr h)]

theorem lexLe_of_fst_lt {α β : Type} [LinearOrder α] [LinearOrder β]
    {x y : α} {u v : β} (h : x < y) : toLex (x, u) ≤ toLex (y, v) :=
  (Prod.Lex.le_iff _ _).mpr (Or.inl h)

theorem not_lexLe_of_fst_gt {α β : Type} [LinearOrder α] [LinearOrder β]
    {x y : α} {u v : β} (h : y < x) : ¬toLex (x, u) ≤ toLex (y, v) := by
  rw [Prod.Lex.le_iff]
  rintro (h1 | ⟨h1, -⟩)
  · exact lt_asymm h h1
  · exact absurd h1 (ne_of_gt h)

theorem lexLe_iff_of_fst_eq {α β : Type} [LinearOrder α] [LinearOrder β]
    {x y : α} {u v : β} (h : x = y) : (toLex (x, u) ≤ toLex (y, v)) ↔ u ≤ v := by
  subst h
  rw [Prod.Lex.le_iff]
  simp [lt_irrefl]

theorem cmp_le_iff (a b : SioctlDesc) : cmpdesc a b ≤ 0 ↔ desckey a ≤ desckey b := by
  unfold cmpdesc desckey
  dsimp only
  rcases lt_trichotomy a.group b.group with h | h | h
  · rw [strcmpInt_neg _ _ h, if_pos (by norm_num)]
    exact iff_of_true (by norm_num) (lexLe_of_fst_lt h)
  · rw [(strcmpInt_eq_zero_iff _ _).mpr h, if_neg (by norm_num), lexLe_iff_of_fst_eq h]
    rcases lt_trichotomy a.node0.name b.node0.name with h2 | h2 | h2
    · rw [strcmpInt_neg _ _ h2, if_pos (by norm_num)]
      exact iff_of_true (by norm_num) (lexLe_of_fst_lt h2)
    · rw [(strcmpInt_eq_zero_iff _ _).mpr h2, if_neg (by norm_num), lexLe_iff_of_fst_eq h2]
      rcases lt_trichotomy (a.type : Int) (b.type : Int) with h3 | h3 | h3
      · rw [if_pos (by omega)]
        exact iff_of_true (by omega) (lexLe_of_fst_lt h3)
      · rw [if_neg (by omega), lexLe_iff_of_fst_eq h3]
        have htypeq : a.type = b.type := by exact_mod_cast h3
        rcases lt_trichotomy a.func b.func with h4 | h4 | h4
        · rw [strcmpInt_neg _ _ h4, if_pos (by norm_num)]
          exact iff_of_true (by norm_num) (lexLe_of_fst_lt h4)
        · rw [(strcmpInt_eq_zero_iff _ _).mpr h4, if_neg (by norm_num), lexLe_iff_of_fst_eq h4]
          by_cases hsel : a.type = SIOCTL_SEL
          · rw [if_pos hsel]
            have hsa : selkey a = (a.node1.name, a.node1.unit) := by
              unfold selkey; rw [if_pos hsel]
            have hsb : selkey b = (b.node1.name, b.node1.unit) := by
              unfold selkey; rw [if_pos (htypeq ▸ hsel)]
            rw [hsa, hsb]
            rcases lt_trichotomy a.node0.unit b.node0.unit with h5 | h5 | h5
            · rw [if_pos (by omega)]
              exact iff_of_true (by omega) (lexLe_of_fst_lt h5)
            · rw [if_neg (by omega), lexLe_iff_of_fst_eq h5]
              rcases lt_trichotomy a.node1.name b.node1.name with h6 | h6 | h6
              · rw [strcmpInt_neg _ _ h6, if_pos (by norm_num)]
                exact iff_of_true (by norm_num) (lexLe_of_fst_lt h6)
              · rw [(strcmpInt_eq_zero_iff _ _).mpr h6, if_neg (by norm_num),
                  lexLe_iff_of_fst_eq h6]
                omega
              · rw [strcmpInt_pos _ _ h6, if_pos (by norm_num)]
                exact iff_of_false (by norm_num) (not_lexLe_of_fst_gt h6)
            · rw [if_pos (by omega)]
              exact iff_of_false (by omega) (not_lexLe_of_fst_gt h5)
          · rw [if_neg hsel]
            have hsa : selkey a = ("", 0) := by
              unfold selkey; rw [if_neg hsel]
            have hsb : selkey b = ("", 0) := by
              unfold selkey; rw [if_neg (htypeq ▸ hsel)]
            rw [hsa, hsb]
            rcases lt_trichotomy a.node0.unit b.node0.unit with h5 | h5 | h5
            · exact iff_of_true (by omega) (lexLe_of_fst_lt h5)
            · rw [lexLe_iff_of_fst_eq h5]
              exact iff_of_true (by omega) le_rfl
            · exact iff_of_false (by omega) (not_lexLe_of_fst_gt h5)
        · rw [strcmpInt_pos _ _ h4, if_pos (by norm_num)]
          exact iff_of_false (by norm_num) (not_lexLe_of_fst_gt h4)
      · rw [if_pos (by omega)]
        exact iff_of_false (by omega) (not_lexLe_of_fst_gt h3)
    · rw [strcmpInt_pos _ _ h2, if_pos (by norm_num)]
      exact iff_of_false (by norm_num) (not_lexLe_of_fst_gt h2)
  · rw [strcmpInt_pos _ _ h, if_pos (by norm_num)]
    exact iff_of_false (by norm_num) (not_lexLe_of_fst_gt h)

theorem cmp_trans {a b c : SioctlDesc}
    (h1 : cmpdesc a b ≤ 0) (h2 : cmpdesc b c ≤ 0) : cmpdesc a c ≤ 0 := by
  rw [cmp_le_iff] at h1 h2 ⊢
  exact le_trans h1 h2

theorem cmp_total (a b : SioctlDesc) : cmpdesc a b ≤ 0 ∨ cmpdesc b a ≤ 0 := by
  rw [cmp_le_iff, cmp_le_iff]
  exact le_total _ _

theorem mem_insertCtl {c x : Ctl} : ∀ {l : List Ctl}, x ∈ insertCtl c l → x = c ∨ x ∈ l := by
  intro l
  induction l with
  | nil =>
    intro h
    unfold insertCtl at h
    exact Or.inl (List.mem_singleton.mp h)
  | cons i rest ih =>
    intro h
    unfold insertCtl at h
    split_ifs at h with hc
    · rcases List.mem_cons.mp h with h1 | h1
      · exact Or.inl h1
      · exact Or.inr h1
    · rcases List.mem_cons.mp h with h1 | h1
      · exact Or.inr (by simp [h1])
      · rcases ih h1 with h2 | h2
        · exact Or.inl h2
        · exact Or.inr (List.mem_cons_of_mem _ h2)

theorem insertCtl_sorted {c : Ctl} : ∀ {l : List Ctl},
    SortedCtl l → SortedCtl (insertCtl c l) := by
  intro l
  induction l with
  | nil =>
    intro _
    unfold insertCtl
    exact List.pairwise_singleton _ _
  | cons i rest ih =>
    intro hs
    rcases List.pairwise_cons.mp hs with ⟨hi, hrest⟩
    unfold insertCtl
    split_ifs with hc
    · apply List.pairwise_cons.mpr
      refine ⟨?_, hs⟩
      intro x hx
      rcases List.mem_cons.mp hx with h1 | h1
      · rw [h1]; exact hc
      · exact cmp_trans hc (hi x h1)
    · apply List.pairwise_cons.mpr
      refine ⟨?_, ih hrest⟩
      intro x hx
      rcases mem_insertCtl hx with h1 | h1
      · rw [h1]
        exact Or.resolve_left (cmp_total c.desc i.desc) hc
      · exact hi x h1

theorem delAddr_sublist (addr : Nat) : ∀ (l : List Ctl), List.Sublist (delAddr addr l) l := by
  intro l
  induction l with
  | nil => exact List.Sublist.refl _
  | cons c rest ih =>
    unfold delAddr
    split_ifs
    · exact List.sublist_cons_self c rest
    · exact List.Sublist.cons₂ c ih

theorem ondesc_sorted (d : Option SioctlDesc) (v : Int) {l : List Ctl}
    (hs : SortedCtl l) : SortedCtl (ondesc d v l) := by
  unfold ondesc
  cases d with
  | none => exact hs
  | some desc =>
    dsimp only
    have h1 : SortedCtl (delAddr desc.addr l) :=
      List.Pairwise.sublist (delAddr_sublist _ _) hs
    split_ifs
    · exact insertCtl_sorted h1
    · exact h1

theorem applyDescs_sorted (evs : List DescEv) : SortedCtl (applyDescs evs) := by
  unfold applyDescs
  have key : ∀ (es : List DescEv) (l : List Ctl), SortedCtl l →
      SortedCtl (es.foldl (fun l e => ondesc e.desc e.val l) l) := by
    intro es
    induction es with
    | nil => exact fun l h => h
    | cons e es ih =>
      intro l h
      exact ih _ (ondesc_sorted _ _ h)
  exact key evs [] (List.Pairwise.nil)

theorem desckey_le_key4 {a b : SioctlDesc} (h : desckey a ≤ desckey b) :
    key4 a ≤ key4 b := by
  unfold desckey at h
  unfold key4
  rcases (Prod.Lex.le_iff _ _).mp h with h1 | ⟨h1, h⟩
  · exact lexLe_of_fst_lt h1
  · rw [lexLe_iff_of_fst_eq h1]
    rcases (Prod.Lex.le_iff _ _).mp h with h2 | ⟨h2, h⟩
    · exact lexLe_of_fst_lt h2
    · rw [lexLe_iff_of_fst_eq h2]
      rcases (Prod.Lex.le_iff _ _).mp h with h3 | ⟨h3, h⟩
      · exact lexLe_of_fst_lt h3
      · rw [lexLe_iff_of_fst_eq h3]
        rcases (Prod.Lex.le_iff _ _).mp h with h4 | ⟨h4, -⟩
        · exact le_of_lt h4
        · exact le_of_eq h4

theorem key4_eq_iff {a b : SioctlDesc} : key4 a = key4 b ↔ samegnkf a b := by
  unfold key4 samegnkf samegnf
  simp only [toLex_inj, Prod.mk.injEq, Nat.cast_inj]
  constructor
  · rintro ⟨hg, hn, ht, hf⟩
    exact ⟨⟨hg, hn, hf⟩, ht⟩
  · rintro ⟨⟨hg, hn, hf⟩, ht⟩
    exact ⟨hg, hn, ht, hf⟩

theorem sorted_contigGNKF {l : List Ctl} (hs : SortedCtl l) : ContigGNKF l := by
  intro k hk j hj i hi hik
  have hil : i < l.length := Nat.lt_trans hi (Nat.lt_trans hj hk)
  have hjl : j < l.length := Nat.lt_trans hj hk
  have hrel := List.pairwise_iff_get.mp hs
  have h1 : cmpdesc (l.get ⟨i, hil⟩).desc (l.get ⟨j, hjl⟩).desc ≤ 0 :=
    hrel ⟨i, hil⟩ ⟨j, hjl⟩ (Fin.mk_lt_mk.mpr hi)
  have h2 : cmpdesc (l.get ⟨j, hjl⟩).desc (l.get ⟨k, hk⟩).desc ≤ 0 :=
    hrel ⟨j, hjl⟩ ⟨k, hk⟩ (Fin.mk_lt_mk.mpr hj)
  have k1 := desckey_le_key4 ((cmp_le_iff _ _).mp h1)
  have k2 := desckey_le_key4 ((cmp_le_iff _ _).mp h2)
  have keq : key4 (l.get ⟨i, hil⟩).desc = key4 (l.get ⟨k, hk⟩).desc :=
    key4_eq_iff.mpr hik
  have hmid : key4 (l.get ⟨i, hil⟩).desc = key4 (l.get ⟨j, hjl⟩).desc :=
    le_antisymm k1 (by rw [keq]; exact k2)
  exact key4_eq_iff.mp hmid

/-- C4 counterexample: the registry orders entries by (group, name, kind,
func, ...), kind before func, so inserting output.level (numeric),
output.mute (numeric) and output.level (switch) yields the sorted list
[level-num, mute-num, level-sw], in which the two entries sharing
(group, name, func) = ("", output, level) are separated by the mute entry:
the claimed contiguity of (group, name, func) classes fails. -/
theorem C4_counterexample :
    applyDescs evs4 = [⟨d4L1, 60⟩, ⟨d4M, 0⟩, ⟨d4L2, 1⟩] ∧
    samegnf d4L1 d4L2 ∧ ¬samegnf d4L1 d4M ∧
    ¬ContigGNF (applyDescs evs4) := by
  refine ⟨by decide, by decide, by decide, ?_⟩
  intro h
  exact absurd (h 2 (by decide) 1 (by decide) 0 (by decide) (by decide)) (by decide)

/-- C4 (amended): for every sequence of ondesc insert/remove events applied
to the empty registry, the resulting list is non-decreasing under cmpdesc's
total order (group, name, kind, func, unit-of-name, and for selectors the
node1 label and unit), and all entities sharing (group, name, kind, func)
— kind included, since the order sorts kind before func — are contiguous. -/
theorem C4_registry_order (evs : List DescEv) :
    SortedCtl (applyDescs evs) ∧ ContigGNKF (applyDescs evs) :=
  ⟨applyDescs_sorted evs, sorted_contigGNKF (applyDescs_sorted evs)⟩

theorem samegrp_refl (d : SioctlDesc) : samegrp d d := ⟨⟨rfl, rfl, rfl⟩, rfl⟩

theorem samegrp_symm {a b : SioctlDesc} (h : samegrp a b) : samegrp b a := by
  obtain ⟨⟨h1, h2, h3⟩, h4⟩ := h
  exact ⟨⟨h1.symm, h2.symm, h3.symm⟩, h4.symm⟩

theorem samegrp_trans {a b c : SioctlDesc} (h : samegrp a b) (h2 : samegrp b c) :
    samegrp a c := by
  obtain ⟨⟨x1, x2, x3⟩, x4⟩ := h
  obtain ⟨⟨y1, y2, y3⟩, y4⟩ := h2
  exact ⟨⟨x1.trans y1, x2.trans y2, x3.trans y3⟩, x4.trans y4⟩

theorem selInv_iff (d : SioctlDesc) (l : List Ctl) :
    SelInv d l ↔
      ((∀ k c, l.get? k = some c → samegrp d c.desc → c.val = 0 ∨ c.val = 1) ∧
       (∀ k1 k2 c1 c2, k1 ≠ k2 → l.get? k1 = some c1 → l.get? k2 = some c2 →
          samegrp d c1.desc → samegrp d c2.desc → ¬(c1.val = 1 ∧ c2.val = 1))) := by
  constructor
  · rintro ⟨hv, hp⟩
    constructor
    · intro k c hk hs
      rcases List.get?_eq_some.mp hk with ⟨hlt, hget⟩
      have := hv k hlt
      rw [hget] at this
      exact this hs
    · intro k1 k2 c1 c2 hne h1 h2 hs1 hs2
      rcases List.get?_eq_some.mp h1 with ⟨hl1, hg1⟩
      rcases List.get?_eq_some.mp h2 with ⟨hl2, hg2⟩
      have := hp k1 hl1 k2 hl2 hne
      rw [hg1, hg2] at this
      exact this hs1 hs2
  · rintro ⟨hv, hp⟩
    constructor
    · intro k hk hs
      exact hv k _ (List.get?_eq_get hk) hs
    · intro k1 h1 k2 h2 hne hs1 hs2
      exact hp k1 k2 _ _ hne (List.get?_eq_get h1) (List.get?_eq_get h2) hs1 hs2

theorem nextentScan_spec (d : SioctlDesc) : ∀ (s : List Ctl) (off : Nat),
    nextentScan d s = some off → ∃ cj, s.get? off = some cj ∧ samegrp d cj.desc := by
  intro s
  induction s with
  | nil => intro off h; cases h
  | cons c rest ih =>
    intro off h
    unfold nextentScan at h
    split_ifs at h with hg hu
    · injection h with h
      subst h
      exact ⟨c, rfl, hg, hu⟩
    · rcases Option.map_eq_some'.mp h with ⟨off1, hoff1, hrfl⟩
      subst hrfl
      rcases ih off1 hoff1 with ⟨cj, hj1, hj2⟩
      exact ⟨cj, by simpa using hj1, hj2⟩

theorem nextentIdx_spec {l : List Ctl} {i j : Nat} (h : nextentIdx l i = some j) :
    i < j ∧ ∃ ci cj, l.get? i = some ci ∧ l.get? j = some cj ∧ samegrp ci.desc cj.desc := by
  refine ⟨nextentIdx_lt h, ?_⟩
  unfold nextentIdx at h
  cases hg : l.get? i with
  | none => rw [hg] at h; cases h
  | some ci =>
    rw [hg] at h
    rcases Option.map_eq_some'.mp h with ⟨off, hoff, hrfl⟩
    rcases nextentScan_spec ci.desc _ off hoff with ⟨cj, hj1, hj2⟩
    refine ⟨ci, cj, rfl, ?_, hj2⟩
    rw [← hrfl]
    rw [List.get?_eq_getElem?] at hj1 ⊢
    rw [List.getElem?_drop] at hj1
    exact hj1

theorem findCurFuel_spec (l : List Ctl) : ∀ (n f cur : Nat),
    findCurFuel l n f = some cur →
    ∃ cf cc, l.get? f = some cf ∧ l.get? cur = some cc ∧
      samegrp cf.desc cc.desc ∧ cc.val ≠ 0 := by
  intro n
  induction n with
  | zero => intro f cur h; cases h
  | succ n ih =>
    intro f cur h
    unfold findCurFuel at h
    cases hg : l.get? f with
    | none => rw [hg] at h; cases h
    | some cf =>
      rw [hg] at h
      dsimp only at h
      split_ifs at h with hval
      · injection h with h
        subst h
        exact ⟨cf, cf, rfl, hg, samegrp_refl _, hval⟩
      · cases hj : nextentIdx l f with
        | none => rw [hj] at h; cases h
        | some j =>
          rw [hj] at h
          rcases ih j cur h with ⟨cj, cc, hgj, hgc, hsjc, hv⟩
          rcases nextentIdx_spec hj with ⟨-, cf1, cj1, hgf1, hgj1, hsfj⟩
          rw [hg] at hgf1
          injection hgf1 with e1
          rw [hgj] at hgj1
          injection hgj1 with e2
          subst e1
          subst e2
          exact ⟨cf, cc, rfl, hgc, samegrp_trans hsfj hsjc, hv⟩

theorem findCurIdx_spec {l : List Ctl} {f cur : Nat} (h : findCurIdx l f = some cur) :
    ∃ cf cc, l.get? f = some cf ∧ l.get? cur = some cc ∧
      samegrp cf.desc cc.desc ∧ cc.val ≠ 0 := by
  rw [← findCurFuel_eq l l.length f (Nat.le_add_right _ _)] at h
  exact findCurFuel_spec l l.length f cur h

theorem setCtlVal_get? (l : List Ctl) (i : Nat) (v : Int) (k : Nat) :
    (setCtlVal l i v).get? k =
      if k = i then (l.get? i).map (fun c => { c with val := v }) else l.get? k := by
  unfold setCtlVal
  cases hg : l.get? i with
  | none =>
    split_ifs with hk
    · subst hk; rw [hg]; rfl
    · rfl
  | some c =>
    split_ifs with hk
    · subst hk
      rw [List.get?_set_eq, hg]
      rfl
    · exact List.get?_set_ne _ _ (fun h => hk h.symm)

theorem addrUnique_get? {l : List Ctl} (hu : AddrUnique l) {k1 k2 : Nat} {c1 c2 : Ctl}
    (h1 : l.get? k1 = some c1) (h2 : l.get? k2 = some c2) (hne : k1 ≠ k2) :
    c1.desc.addr ≠ c2.desc.addr := by
  have hpw := List.pairwise_iff_get.mp hu
  rcases List.get?_eq_some.mp h1 with ⟨hl1, hg1⟩
  rcases List.get?_eq_some.mp h2 with ⟨hl2, hg2⟩
  rcases Nat.lt_or_ge k1 k2 with h | h
  · have hr := hpw ⟨k1, hl1⟩ ⟨k2, hl2⟩ (Fin.mk_lt_mk.mpr h)
    rw [hg1, hg2] at hr
    exact hr
  · have hlt : k2 < k1 := by omega
    have hr := hpw ⟨k2, hl2⟩ ⟨k1, hl1⟩ (Fin.mk_lt_mk.mpr hlt)
    rw [hg1, hg2] at hr
    exact fun e => hr e.symm

theorem setCtlVal_descs (l : List Ctl) (i : Nat) (v : Int) :
    (setCtlVal l i v).map (fun c => c.desc) = l.map (fun c => c.desc) := by
  apply List.ext_get?
  intro n
  rw [List.get?_map, List.get?_map, setCtlVal_get?]
  split_ifs with h
  · subst h
    cases l.get? n <;> rfl
  · rfl

theorem setval_sel_descs (silent : Bool) (s : PState) (f : Nat) (dir : Int) :
    (setval_sel silent s f dir).ctl_list.map (fun c => c.desc) =
      s.ctl_list.map (fun c => c.desc) := by
  unfold setval_sel
  split_ifs
  · rfl
  · cases findCurIdx s.ctl_list f with
    | none => rfl
    | some cur =>
      dsimp only
      split_ifs
      · rfl
      · dsimp only
        rw [setCtlVal_descs, setCtlVal_descs]

theorem setval_num_descs (silent : Bool) (s : PState) (i : Nat) (dir : Int) :
    (setval_num silent s i dir).ctl_list.map (fun c => c.desc) =
      s.ctl_list.map (fun c => c.desc) := by
  unfold setval_num
  cases s.ctl_list.get? i with
  | none => rfl
  | some c =>
    dsimp only
    split_ifs <;> first | rfl | rw [setCtlVal_descs]

theorem setvalStep_descs (silent : Bool) (name func : String) (dir : Int)
    (s : PState) (i : Nat) (c : Ctl) :
    (setvalStep silent name func dir s i c).ctl_list.map (fun x => x.desc) =
      s.ctl_list.map (fun x => x.desc) := by
  unfold setvalStep
  split_ifs
  · exact setval_sel_descs ..
  · exact setval_num_descs ..
  · rfl

theorem hty_transfer {d : SioctlDesc} {l1 l2 : List Ctl}
    (hdesc : l1.map (fun c => c.desc) = l2.map (fun c => c.desc))
    (hty : ∀ k c, l1.get? k = some c → samegrp d c.desc → c.desc.type = SIOCTL_SEL) :
    ∀ k c, l2.get? k = some c → samegrp d c.desc → c.desc.type = SIOCTL_SEL := by
  intro k c hk hs
  have h1 : (l1.map (fun c => c.desc)).get? k = (l2.map (fun c => c.desc)).get? k := by
    rw [hdesc]
  rw [List.get?_map, List.get?_map, hk] at h1
  cases hg : l1.get? k with
  | none => rw [hg] at h1; cases h1
  | some c0 =>
    rw [hg] at h1
    injection h1 with e
    have e2 : c0.desc = c.desc := e
    have hs0 : samegrp d c0.desc := by rw [e2]; exact hs
    have := hty k c0 hg hs0
    rw [← e2]
    exact this

theorem selInv_setval_sel (d : SioctlDesc) (silent : Bool) (s : PState) (f : Nat) (dir : Int)
    (hinv : SelInv d s.ctl_list) : SelInv d (setval_sel silent s f dir).ctl_list := by
  unfold setval_sel
  split_ifs with hdir
  · exact hinv
  · cases hcur : findCurIdx s.ctl_list f with
    | none => exact hinv
    | some cur =>
      dsimp only
      split_ifs with hnc
      · exact hinv
      · dsimp only
        rcases findCurIdx_spec hcur with ⟨cf, cc, hgf, hgc, hsfc, hvcc⟩
        have hnextfact : ∃ cn, s.ctl_list.get? ((nextentIdx s.ctl_list cur).getD f) = some cn ∧
            samegrp cc.desc cn.desc := by
          cases hne : nextentIdx s.ctl_list cur with
          | none =>
            simp only [hne, Option.getD_none]
            exact ⟨cf, hgf, samegrp_symm hsfc⟩
          | some j =>
            simp only [hne, Option.getD_some]
            rcases nextentIdx_spec hne with ⟨-, ci, cj, hgi, hgj, hsij⟩
            rw [hgc] at hgi
            injection hgi with e
            subst e
            exact ⟨cj, hgj, hsij⟩
        rcases hnextfact with ⟨cn, hgn, hsccn⟩
        set nx := (nextentIdx s.ctl_list cur).getD f with hnx
        have hget2 : ∀ k, (setCtlVal (setCtlVal s.ctl_list cur 0) nx 1).get? k =
            if k = nx then (s.ctl_list.get? nx).map (fun c => { c with val := 1 })
            else if k = cur then (s.ctl_list.get? cur).map (fun c => { c with val := 0 })
            else s.ctl_list.get? k := by
          intro k
          simp only [setCtlVal_get?]
          rw [if_neg hnc]
        rw [selInv_iff] at hinv ⊢
        obtain ⟨hv, hp⟩ := hinv
        have hchar : ∀ k c, (setCtlVal (setCtlVal s.ctl_list cur 0) nx 1).get? k = some c →
            (k = nx ∧ c = { cn with val := 1 }) ∨
            (k = cur ∧ c = { cc with val := 0 }) ∨
            (k ≠ nx ∧ k ≠ cur ∧ s.ctl_list.get? k = some c) := by
          intro k c hk
          rw [hget2 k] at hk
          split_ifs at hk with h1 h2
          · rw [hgn] at hk
            injection hk with e
            exact Or.inl ⟨h1, e.symm⟩
          · rw [hgc] at hk
            injection hk with e
            exact Or.inr (Or.inl ⟨h2, e.symm⟩)
          · exact Or.inr (Or.inr ⟨h1, h2, hk⟩)
        constructor
        · intro k c hk hs
          rcases hchar k c hk with ⟨-, rfl⟩ | ⟨-, rfl⟩ | ⟨-, -, hk0⟩
          · exact Or.inr rfl
          · exact Or.inl rfl
          · exact hv k c hk0 hs
        · intro k1 k2 c1 c2 hne hk1 hk2 hs1 hs2 hcon
          obtain ⟨hv1, hv2⟩ := hcon
          rcases hchar k1 c1 hk1 with ⟨he1, rfl⟩ | ⟨he1, rfl⟩ | ⟨hn1, hc1, hk10⟩
          · rcases hchar k2 c2 hk2 with ⟨he2, rfl⟩ | ⟨he2, rfl⟩ | ⟨hn2, hc2, hk20⟩
            · exact hne (he1.trans he2.symm)
            · simp at hv2
            · have hs1n : samegrp d cn.desc := hs1
              have hdcc : samegrp d cc.desc := samegrp_trans hs1n (samegrp_symm hsccn)
              have hcc1 : cc.val = 1 := by
                rcases hv cur cc hgc hdcc with h0 | h1
                · exact absurd h0 hvcc
                · exact h1
              exact hp cur k2 cc c2 (fun e => hc2 e.symm) hgc hk20 hdcc hs2 ⟨hcc1, hv2⟩
          · simp at hv1
          · rcases hchar k2 c2 hk2 with ⟨he2, rfl⟩ | ⟨he2, rfl⟩ | ⟨hn2, hc2, hk20⟩
            · have hs2n : samegrp d cn.desc := hs2
              have hdcc : samegrp d cc.desc := samegrp_trans hs2n (samegrp_symm hsccn)
              have hcc1 : cc.val = 1 := by
                rcases hv cur cc hgc hdcc with h0 | h1
                · exact absurd h0 hvcc
                · exact h1
              exact hp cur k1 cc c1 (fun e => hc1 e.symm) hgc hk10 hdcc hs1 ⟨hcc1, hv1⟩
            · simp at hv2
            · exact hp k1 k2 c1 c2 hne hk10 hk20 hs1 hs2 ⟨hv1, hv2⟩

theorem selInv_setval_num (d : SioctlDesc) (silent : Bool) (s : PState) (i : Nat) (dir : Int)
    (c : Ctl) (hget : s.ctl_list.get? i = some c) (hnotsel : c.desc.type ≠ SIOCTL_SEL)
    (hty : ∀ k c2, s.ctl_list.get? k = some c2 → samegrp d c2.desc → c2.desc.type = SIOCTL_SEL)
    (hinv : SelInv d s.ctl_list) : SelInv d (setval_num silent s i dir).ctl_list := by
  have hnotgrp : ¬samegrp d c.desc := fun hs => hnotsel (hty i c hget hs)
  have hmut : ∀ (v : Int), SelInv d (setCtlVal s.ctl_list i v) := by
    intro v
    rw [selInv_iff] at hinv ⊢
    obtain ⟨hv, hp⟩ := hinv
    have hchar : ∀ k c2, (setCtlVal s.ctl_list i v).get? k = some c2 →
        samegrp d c2.desc → s.ctl_list.get? k = some c2 := by
      intro k c2 hk hs
      rw [setCtlVal_get?] at hk
      split_ifs at hk with h1
      · exfalso
        subst h1
        rw [hget] at hk
        injection hk with e
        apply hnotgrp
        have e2 : ({ c with val := v } : Ctl) = c2 := e
        rw [← e2] at hs
        exact hs
      · exact hk
    constructor
    · intro k c2 hk hs
      exact hv k c2 (hchar k c2 hk hs) hs
    · intro k1 k2 c1 c2 hne hk1 hk2 hs1 hs2
      exact hp k1 k2 c1 c2 hne (hchar k1 c1 hk1 hs1) (hchar k2 c2 hk2 hs2) hs1 hs2
  unfold setval_num
  rw [hget]
  dsimp only
  split_ifs <;> first | exact hinv | exact hmut _

theorem selInv_setvalStep (d : SioctlDesc) (silent : Bool) (name func : String) (dir : Int)
    (s : PState) (i : Nat) (c : Ctl) (hget : s.ctl_list.get? i = some c)
    (hty : ∀ k c2, s.ctl_list.get? k = some c2 → samegrp d c2.desc → c2.desc.type = SIOCTL_SEL)
    (hinv : SelInv d s.ctl_list) :
    SelInv d (setvalStep silent name func dir s i c).ctl_list := by
  unfold setvalStep
  split_ifs with h1 h2
  · exact selInv_setval_sel d silent s i dir hinv
  · exact selInv_setval_num d silent s i dir c hget h2 hty hinv
  · exact hinv

theorem selInv_setvalFuel (d : SioctlDesc) (silent : Bool) (name func : String) (dir : Int) :
    ∀ (n : Nat) (s : PState) (i : Nat),
      (∀ k c, s.ctl_list.get? k = some c → samegrp d c.desc → c.desc.type = SIOCTL_SEL) →
      SelInv d s.ctl_list →
      SelInv d (setvalFuel silent name func dir n s i).ctl_list := by
  intro n
  induction n with
  | zero => exact fun s i hty hinv => hinv
  | succ n ih =>
    intro s i hty hinv
    unfold setvalFuel
    cases hget : s.ctl_list.get? i with
    | none => exact hinv
    | some c =>
      dsimp only
      rw [setvalStepF_eq]
      have hstep := selInv_setvalStep d silent name func dir s i c hget hty hinv
      have hty2 := hty_transfer (setvalStep_descs silent name func dir s i c).symm hty
      cases nextctlIdx (setvalStep silent name func dir s i c).ctl_list i with
      | none => exact hstep
      | some j => exact ih _ j hty2 hstep

theorem selInv_setval (d : SioctlDesc) (silent : Bool) (name func : String) (dir : Int)
    (s : PState)
    (hty : ∀ k c, s.ctl_list.get? k = some c → samegrp d c.desc → c.desc.type = SIOCTL_SEL)
    (hinv : SelInv d s.ctl_list) :
    SelInv d (setval silent name func dir s).ctl_list := by
  rw [← setvalF_eq]
  unfold setvalF
  exact selInv_setvalFuel d silent name func dir s.ctl_list.length s 0 hty hinv

theorem onval_selInv (l : List Ctl) (addr : Nat) (v : Int) (i : Ctl)
    (hu : AddrUnique l)
    (hf : l.find? (fun c => c.desc.addr == addr) = some i)
    (hty : i.desc.type = SIOCTL_SEL) :
    SelInv i.desc (onval addr v l) ∧
    ∃ k c, (onval addr v l).get? k = some c ∧ samegrp i.desc c.desc ∧ c.val = 1 := by
  have honv : onval addr v l = l.map (fun j =>
      if samegrp i.desc j.desc then
        { j with val := if i.desc.addr = j.desc.addr then 1 else 0 } else j) := by
    unfold onval
    rw [hf]
    dsimp only
    rw [if_pos hty]
  constructor
  · rw [selInv_iff, honv]
    constructor
    · intro k c hk hs
      rw [List.get?_map] at hk
      cases hg : l.get? k with
      | none => rw [hg] at hk; cases hk
      | some c0 =>
        rw [hg] at hk
        injection hk with e
        have e1 : (if samegrp i.desc c0.desc then
            ({ c0 with val := if i.desc.addr = c0.desc.addr then (1 : Int) else 0 } : Ctl)
            else c0) = c := e
        by_cases hsg : samegrp i.desc c0.desc
        · rw [if_pos hsg] at e1
          by_cases hca : i.desc.addr = c0.desc.addr
          · right
            rw [← e1]
            dsimp only
            rw [if_pos hca]
          · left
            rw [← e1]
            dsimp only
            rw [if_neg hca]
        · rw [if_neg hsg] at e1
          subst e1
          exact absurd hs hsg
    · intro k1 k2 c1 c2 hne h1 h2 hs1 hs2 hcon
      obtain ⟨hv1, hv2⟩ := hcon
      rw [List.get?_map] at h1 h2
      cases hg1 : l.get? k1 with
      | none => rw [hg1] at h1; cases h1
      | some c0 =>
        cases hg2 : l.get? k2 with
        | none => rw [hg2] at h2; cases h2
        | some d0 =>
          rw [hg1] at h1
          rw [hg2] at h2
          injection h1 with e1p
          injection h2 with e2p
          have e1 : (if samegrp i.desc c0.desc then
              ({ c0 with val := if i.desc.addr = c0.desc.addr then (1 : Int) else 0 } : Ctl)
              else c0) = c1 := e1p
          have e2 : (if samegrp i.desc d0.desc then
              ({ d0 with val := if i.desc.addr = d0.desc.addr then (1 : Int) else 0 } : Ctl)
              else d0) = c2 := e2p
          have ha1 : i.desc.addr = c0.desc.addr := by
            by_cases hsg : samegrp i.desc c0.desc
            · rw [if_pos hsg] at e1
              by_cases hca : i.desc.addr = c0.desc.addr
              · exact hca
              · exfalso
                rw [if_neg hca] at e1
                rw [← e1] at hv1
                have h01 : (0 : Int) = 1 := hv1
                exact absurd h01 (by decide)
            · exfalso
              rw [if_neg hsg] at e1
              subst e1
              exact hsg hs1
          have ha2 : i.desc.addr = d0.desc.addr := by
            by_cases hsg : samegrp i.desc d0.desc
            · rw [if_pos hsg] at e2
              by_cases hca : i.desc.addr = d0.desc.addr
              · exact hca
              · exfalso
                rw [if_neg hca] at e2
                rw [← e2] at hv2
                have h01 : (0 : Int) = 1 := hv2
                exact absurd h01 (by decide)
            · exfalso
              rw [if_neg hsg] at e2
              subst e2
              exact hsg hs2
          exact addrUnique_get? hu hg1 hg2 hne (ha1.symm.trans ha2)
  · rcases List.get?_of_mem (List.mem_of_find?_eq_some hf) with ⟨k, hgk⟩
    refine ⟨k, { i with val := 1 }, ?_, samegrp_refl _, rfl⟩
    rw [honv, List.get?_map, hgk]
    have hfi : (if samegrp i.desc i.desc then
        ({ i with val := if i.desc.addr = i.desc.addr then (1 : Int) else 0 } : Ctl)
        else i) = { i with val := 1 } := by
      rw [if_pos (samegrp_refl _), if_pos rfl]
    exact congrArg some hfi

/-- C1 counterexample: a selector group can arrive from the device with two
members at value 1 (ondesc copies the announced values verbatim); a Cycle
edit on such a group again leaves two members at value 1, so "after any
setValue(..., Cycle) edit at most one member of the group has value = 1"
fails without an assumption on the pre-state. -/
theorem C1_counterexample :
    applyDescs evs1sel = [⟨selA, 1⟩, ⟨selB, 0⟩, ⟨selC, 1⟩] ∧
    (setval_sel false ⟨applyDescs evs1sel, [], false, []⟩ 0 0).ctl_list =
      [⟨selA, 0⟩, ⟨selB, 1⟩, ⟨selC, 1⟩] ∧
    samegnf selA selB ∧ samegnf selB selC ∧
    selA.type = SIOCTL_SEL ∧
    List.countP (fun c => c.val == 1) [(⟨selA, 0⟩ : Ctl), ⟨selB, 1⟩, ⟨selC, 1⟩] = 2 := by
  refine ⟨by decide, ?_, by decide, by decide, by decide, by decide⟩
  rw [← setval_selF_eq]
  decide

/-- C1 (corrected): selector exclusivity holds per sibling set sharing
(group, name, func, unit-of-name) — the class actually used by onval and
nextent — and as an invariant rather than unconditionally: (1) an onval
notification for a selector address establishes it (values become 0/1 with
exactly one sibling at 1), given that registry addresses are unique; (2) a
setval edit (any direction, in particular Cycle) preserves it, given that
the sibling set consists of selector-typed entries.  It does not hold for
the claimed (group, name, func) group, and a Cycle edit applied to a
pre-state that violates it can leave two members at value 1
(C1_counterexample). -/
theorem C1_selector_exclusivity :
    (∀ (l : List Ctl) (addr : Nat) (v : Int) (i : Ctl),
      AddrUnique l →
      l.find? (fun c => c.desc.addr == addr) = some i →
      i.desc.type = SIOCTL_SEL →
      SelInv i.desc (onval addr v l) ∧
      ∃ k c, (onval addr v l).get? k = some c ∧ samegrp i.desc c.desc ∧ c.val = 1) ∧
    (∀ (d : SioctlDesc) (silent : Bool) (name func : String) (dir : Int) (s : PState),
      (∀ k c, s.ctl_list.get? k = some c → samegrp d c.desc → c.desc.type = SIOCTL_SEL) →
      SelInv d s.ctl_list →
      SelInv d (setval silent name func dir s).ctl_list) :=
  ⟨onval_selInv, selInv_setval⟩

theorem C1_witness :
    (SelInv selB (onval 2 5 l3sel) ∧
      ∃ k c, (onval 2 5 l3sel).get? k = some c ∧ samegrp selB c.desc ∧ c.val = 1) ∧
    SelInv selA (setval false "dev" "device" 0 s3sel).ctl_list := by
  constructor
  · exact C1_selector_exclusivity.1 l3sel 2 5 ⟨selB, 1⟩ (by decide) (by decide) (by decide)
  · apply C1_selector_exclusivity.2 selA false "dev" "device" 0 s3sel
    · intro k c hk hs
      have hm : c ∈ s3sel.ctl_list := List.get?_mem hk
      have hall : ∀ x ∈ s3sel.ctl_list, x.desc.type = SIOCTL_SEL := by decide
      exact hall c hm
    · decide
